import Mathlib

/-!
# Verification of the AgenticQuote priority job queue engine

Shallow embedding of `app/message_queue.py` (in-process backend),
`app/mock_redis.py` (in-process emulation of the Redis store) and
`app/redis_queue.py` (durable backend; the in-source configuration runs
against the mock store, since the real Redis server is external to the
repository).

Modelling conventions:
* Python `datetime` values are modelled as abstract `Nat` timestamps
  (seconds); `datetime.now()` is an explicit `now : Nat` argument.
* Python `dict` values are modelled as insertion-ordered association
  lists with unique keys, which is exactly the observable behaviour of
  CPython dicts; `dict.update` / item assignment replace the value in
  place for an existing key and append for a new key.
* `uuid.uuid4()` identifiers are modelled by a fresh-counter field
  `next_id`; all that the code relies on is their uniqueness.
* Python exceptions (`ValueError` on a full queue) are modelled with
  `Except String`.
* Payload values are an arbitrary type `V` with decidable equality.
-/

namespace AgenticQuote

open List

/-! ## Python dict model -/

/-- CPython dict item assignment `d[k] = v`: replace in place if the key
exists, otherwise append at the end (insertion order preserved).  The
keys of a CPython dict are pairwise distinct, so replacing the first
occurrence is replacement of the occurrence. -/
def mapSet {K A : Type} [DecidableEq K] : List (K × A) → K → A → List (K × A)
  | [], k, v => [(k, v)]
  | p :: t, k, v => if p.1 = k then (k, v) :: t else p :: mapSet t k v

/-- CPython `d.get(k)` / `d[k]` / `k in d` lookup. -/
def mapGet {K A : Type} [DecidableEq K] : List (K × A) → K → Option A
  | [], _ => none
  | p :: t, k => if p.1 = k then some p.2 else mapGet t k

/-- CPython `del d[k]` / `d.pop(k)`: removes the entry for `k`. -/
def mapDel {K A : Type} [DecidableEq K] : List (K × A) → K → List (K × A)
  | [], _ => []
  | p :: t, k => if p.1 = k then t else p :: mapDel t k

/-- CPython `d.update(r)`: assign every key of `r` into `d`, in order. -/
def dictUpdate {V : Type} (d r : List (String × V)) : List (String × V) :=
  r.foldl (fun acc p => mapSet acc p.1 p.2) d

/-! ## Enumerations (`QueueStatus`, `MessagePriority`) -/

/-- `QueueStatus` enum, identical in `message_queue.py` and
`redis_queue.py`. -/
inductive QueueStatus : Type where
  | pending
  | processing
  | completed
  | failed
  | cancelled
deriving DecidableEq, Repr

/-- The `.value` string of each `QueueStatus` member. -/
def QueueStatus.value : QueueStatus → String
  | .pending => "pending"
  | .processing => "processing"
  | .completed => "completed"
  | .failed => "failed"
  | .cancelled => "cancelled"

/-- `QueueStatus(s)` enum lookup by value; `none` models the `ValueError`
on an unknown value. -/
def QueueStatus.ofValue (s : String) : Option QueueStatus :=
  if s = "pending" then some .pending
  else if s = "processing" then some .processing
  else if s = "completed" then some .completed
  else if s = "failed" then some .failed
  else if s = "cancelled" then some .cancelled
  else none

/-- `MessagePriority` enum, identical in both backend files. -/
inductive MessagePriority : Type where
  | low
  | normal
  | high
  | urgent
deriving DecidableEq, Repr

/-- The `.value` ordinal of each `MessagePriority` member (1-4). -/
def MessagePriority.value : MessagePriority → Nat
  | .low => 1
  | .normal => 2
  | .high => 3
  | .urgent => 4

/-- `MessagePriority(n)` enum lookup by ordinal; `none` models the
`ValueError` on an out-of-range ordinal. -/
def MessagePriority.ofValue (n : Nat) : Option MessagePriority :=
  if n = 1 then some .low
  else if n = 2 then some .normal
  else if n = 3 then some .high
  else if n = 4 then some .urgent
  else none

/-! ## `QueueMessage` (identical dataclass in both backend files) -/

/-- The `QueueMessage` dataclass. -/
structure QueueMessage (V : Type) where
  id : Nat
  payload : List (String × V)
  priority : MessagePriority
  status : QueueStatus
  created_at : Nat
  started_at : Option Nat
  completed_at : Option Nat
  error_message : Option String
  retry_count : Nat
  max_retries : Nat
  timeout_seconds : Nat
deriving DecidableEq, Repr

/-- `QueueMessage(payload=payload, priority=priority)` with every other
field at its dataclass default (`status=PENDING`, `retry_count=0`,
`max_retries=3`, `timeout_seconds=300`); `id` is the fresh uuid and
`created_at` the current time. -/
def QueueMessage.mkDefault {V : Type} (id : Nat) (payload : List (String × V))
    (priority : MessagePriority) (now : Nat) : QueueMessage V :=
  { id := id, payload := payload, priority := priority,
    status := .pending, created_at := now, started_at := none,
    completed_at := none, error_message := none, retry_count := 0,
    max_retries := 3, timeout_seconds := 300 }

/-! ## Serialization (`QueueMessage.to_dict` / `from_dict`,
`redis_queue.py` lines 54-90)

`datetime.isoformat` / `datetime.fromisoformat` are standard-library
functions (not code of this repository); they are an injective rendering
of a timestamp to a decimal-digit string and its inverse, modelled here
by `Nat.digits 10` / `Nat.ofDigits 10`.  `from_dict` guards the optional
timestamps with Python truthiness (`if data.get("started_at")`), which on
the wire format coincides with a `None` test because an `isoformat`
string is never empty; it is modelled as an `Option` match. -/

/-- Model of `datetime.isoformat`: injective rendering of a timestamp to
a digit string. -/
def isoformat (t : Nat) : List Nat := Nat.digits 10 t

/-- Model of `datetime.fromisoformat`, the inverse rendering. -/
def fromisoformat (s : List Nat) : Nat := Nat.ofDigits 10 s

/-- The flat wire document produced by `QueueMessage.to_dict` (the JSON
object stored in Redis). -/
structure MessageDict (V : Type) where
  id : Nat
  payload : List (String × V)
  priority : Nat
  status : String
  created_at : List Nat
  started_at : Option (List Nat)
  completed_at : Option (List Nat)
  error_message : Option String
  retry_count : Nat
  max_retries : Nat
  timeout_seconds : Nat
deriving DecidableEq, Repr

/-- `QueueMessage.to_dict` (`redis_queue.py` lines 54-68). -/
def QueueMessage.to_dict {V : Type} (m : QueueMessage V) : MessageDict V :=
  { id := m.id, payload := m.payload, priority := m.priority.value,
    status := m.status.value, created_at := isoformat m.created_at,
    started_at := m.started_at.map isoformat,
    completed_at := m.completed_at.map isoformat,
    error_message := m.error_message, retry_count := m.retry_count,
    max_retries := m.max_retries, timeout_seconds := m.timeout_seconds }

/-- `QueueMessage.from_dict` (`redis_queue.py` lines 70-90); `none`
models the `ValueError` raised by an invalid enum ordinal or status
string. -/
def QueueMessage.from_dict {V : Type} (d : MessageDict V) :
    Option (QueueMessage V) :=
  match MessagePriority.ofValue d.priority, QueueStatus.ofValue d.status with
  | some p, some st =>
      some { id := d.id, payload := d.payload, priority := p, status := st,
             created_at := fromisoformat d.created_at,
             started_at := d.started_at.map fromisoformat,
             completed_at := d.completed_at.map fromisoformat,
             error_message := d.error_message, retry_count := d.retry_count,
             max_retries := d.max_retries,
             timeout_seconds := d.timeout_seconds }
  | _, _ => none

/-! ## In-process backend (`MessageQueue`, `message_queue.py`) -/

/-- The sort key `lambda m: (-m.priority.value, m.created_at)` used by
`MessageQueue.enqueue` and `MessageQueue.fail`; `msgLE` is the induced
tuple comparison used by Python's stable `list.sort`. -/
def sortKey {V : Type} (m : QueueMessage V) : Int × Nat :=
  (-(m.priority.value : Int), m.created_at)

/-- Tuple `<=` on sort keys (lexicographic, as Python compares tuples). -/
def msgLE {V : Type} (a b : QueueMessage V) : Bool :=
  decide ((sortKey a).1 < (sortKey b).1) ||
    (decide ((sortKey a).1 = (sortKey b).1) &&
      decide ((sortKey a).2 ≤ (sortKey b).2))

/-- State of the in-process `MessageQueue`: the ordered pending list, the
`_processing` and `_completed` id-keyed dicts, the configured `max_size`,
and the uuid freshness counter. -/
structure MessageQueue (V : Type) where
  max_size : Nat
  queue : List (QueueMessage V)
  processing : List (Nat × QueueMessage V)
  completed : List (Nat × QueueMessage V)
  next_id : Nat
deriving DecidableEq, Repr

/-- `MessageQueue(max_size)` constructor: empty structures. -/
def MessageQueue.empty (V : Type) (max_size : Nat) : MessageQueue V :=
  { max_size := max_size, queue := [], processing := [], completed := [],
    next_id := 0 }

/-- `MessageQueue.enqueue` (lines 58-70): raise `ValueError` when the
pending list is at `max_size`; otherwise append the new default message
and re-sort the pending list by `(-priority.value, created_at)` with
Python's stable sort. -/
def MessageQueue.enqueue {V : Type} (s : MessageQueue V)
    (payload : List (String × V)) (priority : MessagePriority) (now : Nat) :
    Except String (Nat × MessageQueue V) :=
  if s.queue.length ≥ s.max_size then
    .error "Queue is full"
  else
    let m := QueueMessage.mkDefault s.next_id payload priority now
    .ok (m.id,
      { s with queue := (s.queue ++ [m]).mergeSort msgLE,
               next_id := s.next_id + 1 })

/-- `MessageQueue.dequeue` (lines 72-84): pop the head of the pending
list, stamp `status=PROCESSING` and `started_at`, and move it into the
`_processing` dict. -/
def MessageQueue.dequeue {V : Type} (s : MessageQueue V) (now : Nat) :
    Option (QueueMessage V × MessageQueue V) :=
  match s.queue with
  | [] => none
  | m :: rest =>
      let m1 := { m with status := QueueStatus.processing,
                         started_at := some now }
      some (m1, { s with queue := rest,
                         processing := mapSet s.processing m1.id m1 })

/-- `MessageQueue.complete` (lines 86-103): `False` if the id is not in
`_processing`; otherwise pop it, stamp `COMPLETED`/`completed_at`, merge
the result dict into the payload when it is truthy, and store the record
in `_completed`. -/
def MessageQueue.complete {V : Type} (s : MessageQueue V) (message_id : Nat)
    (result : Option (List (String × V))) (now : Nat) :
    Bool × MessageQueue V :=
  match mapGet s.processing message_id with
  | none => (false, s)
  | some m =>
      let m1 := { m with status := QueueStatus.completed,
                         completed_at := some now,
                         payload :=
                           match result with
                           | some r => if r.isEmpty then m.payload
                                       else dictUpdate m.payload r
                           | none => m.payload }
      (true, { s with processing := mapDel s.processing message_id,
                      completed := mapSet s.completed message_id m1 })

/-- `MessageQueue.fail` (lines 105-131): `False` if the id is not in
`_processing`; otherwise pop it, record the error, increment
`retry_count`; while `retry_count < max_retries` revert to `PENDING`
(clearing `started_at`) and re-sort it into the pending list, else stamp
`FAILED`/`completed_at` and store it in `_completed`. -/
def MessageQueue.fail {V : Type} (s : MessageQueue V) (message_id : Nat)
    (error_message : String) (now : Nat) : Bool × MessageQueue V :=
  match mapGet s.processing message_id with
  | none => (false, s)
  | some m =>
      let s0 := { s with processing := mapDel s.processing message_id }
      let m1 := { m with error_message := some error_message,
                         retry_count := m.retry_count + 1 }
      if m1.retry_count < m1.max_retries then
        let m2 := { m1 with status := QueueStatus.pending,
                            started_at := none }
        (true, { s0 with queue := (s0.queue ++ [m2]).mergeSort msgLE })
      else
        let m2 := { m1 with status := QueueStatus.failed,
                            completed_at := some now }
        (true, { s0 with completed := mapSet s0.completed message_id m2 })

/-- `MessageQueue.get_status` (lines 133-149): search the pending list,
then `_processing`, then `_completed`; the returned record is the view
that `_message_to_dict` projects. -/
def MessageQueue.get_status {V : Type} (s : MessageQueue V)
    (message_id : Nat) : Option (QueueMessage V) :=
  match s.queue.find? (fun m => decide (m.id = message_id)) with
  | some m => some m
  | none =>
      match mapGet s.processing message_id with
      | some m => some m
      | none => mapGet s.completed message_id

/-- The dictionary returned by `MessageQueue.get_queue_stats`
(lines 151-164). -/
structure MQStats where
  pending_count : Nat
  processing_count : Nat
  completed_count : Nat
  max_size : Nat
  oldest_pending : Option Nat
  longest_processing : Nat
deriving DecidableEq, Repr

/-- `MessageQueue.get_queue_stats` (lines 151-164): structure sizes,
`created_at` of the queue head, and the maximum `now - started_at` over
`_processing` (0 when empty).  A processing record always has
`started_at` set; the `getD now` default makes the subtraction total. -/
def MessageQueue.get_queue_stats {V : Type} (s : MessageQueue V)
    (now : Nat) : MQStats :=
  { pending_count := s.queue.length,
    processing_count := s.processing.length,
    completed_count := s.completed.length,
    max_size := s.max_size,
    oldest_pending := (s.queue.head?).map (fun m => m.created_at),
    longest_processing :=
      if s.processing.isEmpty then 0
      else (s.processing.map
              (fun p => now - (p.2.started_at.getD now))).foldl max 0 }

/-- `timedelta(hours=h)` in seconds; the cutoff `now - timedelta` is
computed in `Int` because a Python datetime subtraction does not
truncate. -/
def cutoffTime (now : Nat) (older_than_hours : Nat) : Int :=
  (now : Int) - 3600 * (older_than_hours : Int)

/-- `MessageQueue.cleanup_old_messages` (lines 166-179): collect the ids
of `_completed` records whose `completed_at` is set and predates
`now - older_than_hours`, delete each collected id, return the count. -/
def MessageQueue.cleanup_old_messages {V : Type} (s : MessageQueue V)
    (now : Nat) (older_than_hours : Nat) : Nat × MessageQueue V :=
  let cutoff := cutoffTime now older_than_hours
  let old_messages := (s.completed.filter
    (fun p => match p.2.completed_at with
              | some c => decide ((c : Int) < cutoff)
              | none => false)).map (fun p => p.1)
  (old_messages.length,
   { s with completed := old_messages.foldl mapDel s.completed })

/-! ## Mock Redis store primitives (`mock_redis.py`)

The sorted set is `Dict[str, float]` keyed by the serialized message;
since `json.dumps(message.to_dict())` is an injective rendering of the
record (`to_dict`/`from_dict` round-trip, proved below), the member
string is modelled by the `QueueMessage` itself and the score by an
`Int` (the scores used are the negated priority ordinals).  Hashes whose
values are serialized messages are modelled as id-keyed dicts; the stats
hash holds stringified integers, and `str`/`int` conversions cancel, so
it is modelled as a `String`-keyed dict of `Int`. -/

/-- `MockRedis.zadd` with the single-member mapping the queue code
passes: `dict.update` keeps the position of an existing member and
appends a new one. -/
def zadd {V : Type} [DecidableEq V] : List (QueueMessage V × Int) →
    QueueMessage V → Int → List (QueueMessage V × Int)
  | [], member, score => [(member, score)]
  | e :: t, member, score =>
      if e.1 = member then (member, score) :: t
      else e :: zadd t member score

/-- The `key=lambda x: x[1]` score comparison of `MockRedis.zpopmin`. -/
def scoreLE {V : Type} (a b : QueueMessage V × Int) : Bool :=
  decide (a.2 ≤ b.2)

/-- `MockRedis.zpopmin` (lines 63-81) with `count=1` as the queue code
calls it: stable-sort the members by score, take the first, delete it
from the member dict.  Returns the popped entries and the remaining
set. -/
def zpopmin1 {V : Type} [DecidableEq V] (l : List (QueueMessage V × Int)) :
    List (QueueMessage V × Int) × List (QueueMessage V × Int) :=
  let sorted := l.mergeSort scoreLE
  let result := sorted.take 1
  (result, result.foldl (fun acc e => acc.eraseP (fun x => x.1 = e.1)) l)

/-- `MockRedis.hincrby` (lines 133-142): `int(h.get(field, 0)) + inc`,
stored back as a string. -/
def hincrby (h : List (String × Int)) (f : String) (inc : Int) :
    List (String × Int) :=
  mapSet h f ((mapGet h f).getD 0 + inc)

/-- `h.get(field, 0)` read of a stats counter (`int(stats.get(k, 0))`). -/
def statGet (h : List (String × Int)) (f : String) : Int :=
  (mapGet h f).getD 0

/-! ## Durable backend (`RedisMessageQueue`, `redis_queue.py`)

The repository configuration runs this class against the in-source
`MockRedis` store (the `redis` package and server are external); the
real-Redis branches of each method are line-for-line copies of the mock
branches against the external client and are not modelled.  The four
fixed keys `QUEUE_KEY`, `PROCESSING_KEY`, `COMPLETED_KEY`, `STATS_KEY`
address disjoint structures of the store and are modelled as the four
state fields below. -/

/-- State of a `RedisMessageQueue` together with its mock store. -/
structure RedisMessageQueue (V : Type) where
  max_size : Nat
  use_mock : Bool
  queue : List (QueueMessage V × Int)
  processing : List (Nat × QueueMessage V)
  completed : List (Nat × QueueMessage V)
  stats : List (String × Int)
  next_id : Nat
deriving DecidableEq, Repr

/-- `RedisMessageQueue(redis_url, max_size)` constructor: empty store,
`_use_mock = False`. -/
def RedisMessageQueue.empty (V : Type) (max_size : Nat) :
    RedisMessageQueue V :=
  { max_size := max_size, use_mock := false, queue := [], processing := [],
    completed := [], stats := [], next_id := 0 }

/-- `RedisMessageQueue.initialize` (lines 110-133): when the redis
package is unavailable or the connection `ping` fails, fall back to the
mock store by setting `_use_mock = True`; on a reachable store the flag
stays `False`.  `store_reachable` models the conjunction
`REDIS_AVAILABLE and ping-succeeds`. -/
def RedisMessageQueue.initializeStore {V : Type} (s : RedisMessageQueue V)
    (store_reachable : Bool) : RedisMessageQueue V :=
  if store_reachable then s else { s with use_mock := true }

/-- `RedisMessageQueue.enqueue` (lines 141-188, mock branch): reject when
`zcard` of the pending sorted set is at `max_size` (`ValueError`);
otherwise `zadd` the new default message with score
`-message.priority.value` and `hincrby` the `total_enqueued` counter. -/
def RedisMessageQueue.enqueue {V : Type} [DecidableEq V]
    (s : RedisMessageQueue V) (payload : List (String × V))
    (priority : MessagePriority) (now : Nat) :
    Except String (Nat × RedisMessageQueue V) :=
  if s.queue.length ≥ s.max_size then
    .error "Queue is full"
  else
    let m := QueueMessage.mkDefault s.next_id payload priority now
    .ok (m.id,
      { s with queue := zadd s.queue m (-(m.priority.value : Int)),
               stats := hincrby s.stats "total_enqueued" 1,
               next_id := s.next_id + 1 })

/-- `RedisMessageQueue.dequeue` (lines 190-258, mock branch): `zpopmin`
the pending sorted set; on a popped member, parse it, stamp
`PROCESSING`/`started_at`, `hset` it into the processing hash and bump
the `total_dequeued` and `currently_processing` counters. -/
def RedisMessageQueue.dequeue {V : Type} [DecidableEq V]
    (s : RedisMessageQueue V) (now : Nat) :
    Option (QueueMessage V) × RedisMessageQueue V :=
  let popped := zpopmin1 s.queue
  match popped.1 with
  | [] => (none, s)
  | e :: _ =>
      let m1 := { e.1 with status := QueueStatus.processing,
                           started_at := some now }
      (some m1,
       { s with queue := popped.2,
                processing := mapSet s.processing m1.id m1,
                stats := hincrby (hincrby s.stats "total_dequeued" 1)
                           "currently_processing" 1 })

/-- `RedisMessageQueue.complete` (lines 260-340, mock branch): `False`
when the id is absent from the processing hash; otherwise stamp
`COMPLETED`/`completed_at`, merge a truthy result into the payload,
`hset` into the completed hash, `hdel` from processing, and bump
`total_completed` / decrement `currently_processing`. -/
def RedisMessageQueue.complete {V : Type} [DecidableEq V]
    (s : RedisMessageQueue V) (message_id : Nat)
    (result : Option (List (String × V))) (now : Nat) :
    Bool × RedisMessageQueue V :=
  match mapGet s.processing message_id with
  | none => (false, s)
  | some m =>
      let m1 := { m with status := QueueStatus.completed,
                         completed_at := some now,
                         payload :=
                           match result with
                           | some r => if r.isEmpty then m.payload
                                       else dictUpdate m.payload r
                           | none => m.payload }
      (true, { s with completed := mapSet s.completed message_id m1,
                      processing := mapDel s.processing message_id,
                      stats := hincrby (hincrby s.stats "total_completed" 1)
                                 "currently_processing" (-1) })

/-- `RedisMessageQueue.fail` (lines 342-459, mock branch): `False` when
the id is absent from the processing hash; otherwise record the error,
increment `retry_count`; while `retry_count < max_retries` revert to
`PENDING`, `zadd` back at the same `-priority` score and bump
`total_retries`, else stamp `FAILED`/`completed_at`, `hset` into the
completed hash and bump `total_failed`; either way `hdel` from
processing and decrement `currently_processing`. -/
def RedisMessageQueue.fail {V : Type} [DecidableEq V]
    (s : RedisMessageQueue V) (message_id : Nat) (error_message : String)
    (now : Nat) : Bool × RedisMessageQueue V :=
  match mapGet s.processing message_id with
  | none => (false, s)
  | some m =>
      let m1 := { m with error_message := some error_message,
                         retry_count := m.retry_count + 1 }
      if m1.retry_count < m1.max_retries then
        let m2 := { m1 with status := QueueStatus.pending,
                            started_at := none }
        (true, { s with queue := zadd s.queue m2
                          (-(m2.priority.value : Int)),
                        processing := mapDel s.processing message_id,
                        stats := hincrby (hincrby s.stats "total_retries" 1)
                                   "currently_processing" (-1) })
      else
        let m2 := { m1 with status := QueueStatus.failed,
                            completed_at := some now }
        (true, { s with completed := mapSet s.completed message_id m2,
                        processing := mapDel s.processing message_id,
                        stats := hincrby (hincrby s.stats "total_failed" 1)
                                   "currently_processing" (-1) })

/-- `RedisMessageQueue.get_status` (lines 461-510, mock branch): scan the
pending sorted set for the id, then the processing hash, then the
completed hash. -/
def RedisMessageQueue.get_status {V : Type} (s : RedisMessageQueue V)
    (message_id : Nat) : Option (QueueMessage V) :=
  match (s.queue.map (fun e => e.1)).find?
      (fun m => decide (m.id = message_id)) with
  | some m => some m
  | none =>
      match mapGet s.processing message_id with
      | some m => some m
      | none => mapGet s.completed message_id

/-- The dictionary returned by `RedisMessageQueue.get_queue_stats`
(lines 512-584). -/
structure RedisStats where
  pending_count : Nat
  processing_count : Nat
  completed_count : Nat
  max_size : Nat
  oldest_pending : Option Nat
  longest_processing : Nat
  total_enqueued : Int
  total_dequeued : Int
  total_completed : Int
  total_failed : Int
  total_retries : Int
  currently_processing : Int
deriving DecidableEq, Repr

/-- `RedisMessageQueue.get_queue_stats` (lines 512-584, mock branch):
structure sizes, counters from the stats hash, and hard-coded
`oldest_pending = None`, `longest_processing = 0`. -/
def RedisMessageQueue.get_queue_stats {V : Type} (s : RedisMessageQueue V) :
    RedisStats :=
  { pending_count := s.queue.length,
    processing_count := s.processing.length,
    completed_count := s.completed.length,
    max_size := s.max_size,
    oldest_pending := none,
    longest_processing := 0,
    total_enqueued := statGet s.stats "total_enqueued",
    total_dequeued := statGet s.stats "total_dequeued",
    total_completed := statGet s.stats "total_completed",
    total_failed := statGet s.stats "total_failed",
    total_retries := statGet s.stats "total_retries",
    currently_processing := statGet s.stats "currently_processing" }

/-- `RedisMessageQueue.cleanup_old_messages` (lines 590-618): the method
has no mock branch; with the store fallen back to the mock,
`self._redis` is `None` and `self._redis.hgetall(...)` raises
`AttributeError` (re-raised by the `except` clause).  The real-Redis
branch (external store) filters the completed hash like the in-process
sweeper. -/
def RedisMessageQueue.cleanup_old_messages {V : Type}
    (s : RedisMessageQueue V) (now : Nat) (older_than_hours : Nat) :
    Except String (Nat × RedisMessageQueue V) :=
  if s.use_mock then
    .error "AttributeError: NoneType object has no attribute hgetall"
  else
    let cutoff := cutoffTime now older_than_hours
    let old_message_ids := (s.completed.filter
      (fun p => match p.2.completed_at with
                | some c => decide ((c : Int) < cutoff)
                | none => false)).map (fun p => p.1)
    .ok (old_message_ids.length,
      { s with completed := old_message_ids.foldl mapDel s.completed })

/-- The dictionary returned by `RedisMessageQueue.health_check`. -/
structure HealthView where
  status : String
  redis_connected : Bool
  using_mock : Bool
deriving DecidableEq, Repr

/-- `RedisMessageQueue.health_check` (lines 620-656): in mock mode always
`healthy` with `using_mock=True`; otherwise `healthy` when the store
`ping` succeeds and `unhealthy` (from the `except` clause) when it
fails. -/
def RedisMessageQueue.health_check {V : Type} (s : RedisMessageQueue V)
    (ping_ok : Bool) : HealthView :=
  if s.use_mock then
    { status := "healthy", redis_connected := false, using_mock := true }
  else if ping_ok then
    { status := "healthy", redis_connected := true, using_mock := false }
  else
    { status := "unhealthy", redis_connected := false, using_mock := false }

/-! ## Basic lemmas -/

/-- `fromisoformat` inverts `isoformat` (the library round-trip). -/
theorem fromisoformat_isoformat (t : Nat) : fromisoformat (isoformat t) = t :=
  Nat.ofDigits_digits 10 t

/-- Optional-timestamp round-trip. -/
theorem optIso_roundtrip (o : Option Nat) :
    (o.map isoformat).map fromisoformat = o := by
  cases o with
  | none => rfl
  | some t => simp [fromisoformat_isoformat]

/-- `MessagePriority.ofValue` inverts `.value`. -/
theorem priority_ofValue_value (p : MessagePriority) :
    MessagePriority.ofValue p.value = some p := by
  cases p <;> rfl

/-- `QueueStatus.ofValue` inverts `.value`. -/
theorem status_ofValue_value (st : QueueStatus) :
    QueueStatus.ofValue st.value = some st := by
  cases st <;> rfl

/-- C9.  Job-record serialization round-trips losslessly:
`from_dict (to_dict m)` reconstructs every field of `m`; the wire form
carries the priority as its ordinal 1-4 and the timestamps as their
ISO-8601 renderings. -/
theorem C9_serialization_roundtrip {V : Type} (m : QueueMessage V) :
    QueueMessage.from_dict (QueueMessage.to_dict m) = some m ∧
    (QueueMessage.to_dict m).priority = m.priority.value ∧
    1 ≤ (QueueMessage.to_dict m).priority ∧
    (QueueMessage.to_dict m).priority ≤ 4 ∧
    (QueueMessage.to_dict m).created_at = isoformat m.created_at := by
  refine ⟨?_, rfl, ?_, ?_, rfl⟩
  · obtain ⟨id, payload, prio, st, c, sa, ca, em, rc, mr, ts⟩ := m
    simp only [QueueMessage.from_dict, QueueMessage.to_dict,
      priority_ofValue_value, status_ofValue_value,
      fromisoformat_isoformat, optIso_roundtrip]
  · cases hp : m.priority <;>
      simp [QueueMessage.to_dict, MessagePriority.value, hp]
  · cases hp : m.priority <;>
      simp [QueueMessage.to_dict, MessagePriority.value, hp]

/-- C4.  An acknowledgement (`complete` or `fail`) for an id that is not
currently in the processing set returns `False` and leaves the whole
backend state — pending, in-flight, terminal structures and counters —
unchanged, on both backends. -/
theorem C4_ack_not_in_flight_noop {V : Type} [DecidableEq V]
    (s : MessageQueue V) (rs : RedisMessageQueue V) (message_id : Nat)
    (result : Option (List (String × V))) (error_message : String)
    (now : Nat)
    (h : mapGet s.processing message_id = none)
    (hr : mapGet rs.processing message_id = none) :
    s.complete message_id result now = (false, s) ∧
    s.fail message_id error_message now = (false, s) ∧
    rs.complete message_id result now = (false, rs) ∧
    rs.fail message_id error_message now = (false, rs) := by
  refine ⟨?_, ?_, ?_, ?_⟩ <;>
    simp only [MessageQueue.complete, MessageQueue.fail,
      RedisMessageQueue.complete, RedisMessageQueue.fail, h, hr]

/-- Witness for C4 on concrete empty states. -/
theorem C4_ack_not_in_flight_noop_witness :
    mapGet (MessageQueue.empty Nat 5).processing 0 = none ∧
    (MessageQueue.empty Nat 5).complete 0 none 3 =
      (false, MessageQueue.empty Nat 5) := by
  have h := C4_ack_not_in_flight_noop (MessageQueue.empty Nat 5)
    (RedisMessageQueue.empty Nat 5) 0 none "boom" 3 (by rfl) (by rfl)
  exact ⟨by rfl, h.1⟩

/-- `zadd` of a member not currently in the sorted set appends it. -/
theorem zadd_of_not_mem {V : Type} [DecidableEq V]
    (l : List (QueueMessage V × Int)) (m : QueueMessage V) (score : Int)
    (h : ∀ e ∈ l, e.1 ≠ m) : zadd l m score = l ++ [(m, score)] := by
  induction l with
  | nil => rfl
  | cons e t ih =>
      rw [zadd, if_neg (h e (List.mem_cons_self e t)),
        ih (fun x hx => h x (List.mem_cons_of_mem e hx))]
      rfl

/-- C10.  On both backends, `fail` on an in-flight job with attempts
remaining always re-inserts the job into the pending set and returns
`True`, with no capacity check: the pending count grows by one even when
it is already at (or beyond) `max_size`, so the pending set can exceed
the configured maximum. -/
theorem C10_retry_bypasses_capacity {V : Type} [DecidableEq V]
    (s : MessageQueue V) (rs : RedisMessageQueue V) (message_id : Nat)
    (error_message : String) (now : Nat) (m rm : QueueMessage V)
    (h : mapGet s.processing message_id = some m)
    (hretry : m.retry_count + 1 < m.max_retries)
    (hr : mapGet rs.processing message_id = some rm)
    (hrretry : rm.retry_count + 1 < rm.max_retries)
    (hfresh : ∀ e ∈ rs.queue, e.1.id ≠ rm.id) :
    (s.fail message_id error_message now).1 = true ∧
    (s.fail message_id error_message now).2.queue.length =
      s.queue.length + 1 ∧
    (s.queue.length ≥ s.max_size →
      (s.fail message_id error_message now).2.queue.length > s.max_size) ∧
    (rs.fail message_id error_message now).1 = true ∧
    (rs.fail message_id error_message now).2.queue.length =
      rs.queue.length + 1 ∧
    (rs.queue.length ≥ rs.max_size →
      (rs.fail message_id error_message now).2.queue.length >
        rs.max_size) := by
  have hmem : (s.fail message_id error_message now) =
      (true,
        { s with
            processing := mapDel s.processing message_id,
            queue := ((s.queue ++
              [{ m with
                   error_message := some error_message,
                   retry_count := m.retry_count + 1,
                   status := QueueStatus.pending,
                   started_at := none }]).mergeSort msgLE) }) := by
    simp only [MessageQueue.fail, h, if_pos hretry]
  have hzadd : zadd rs.queue
      { rm with
          error_message := some error_message,
          retry_count := rm.retry_count + 1,
          status := QueueStatus.pending, started_at := none }
      (-(rm.priority.value : Int)) =
      rs.queue ++
        [({ rm with
              error_message := some error_message,
              retry_count := rm.retry_count + 1,
              status := QueueStatus.pending, started_at := none },
          -(rm.priority.value : Int))] := by
    apply zadd_of_not_mem
    intro e he heq
    exact hfresh e he (by rw [heq])
  have hrmem : (rs.fail message_id error_message now) =
      (true,
        { rs with
            processing := mapDel rs.processing message_id,
            queue := rs.queue ++
              [({ rm with
                    error_message := some error_message,
                    retry_count := rm.retry_count + 1,
                    status := QueueStatus.pending, started_at := none },
                -(rm.priority.value : Int))],
            stats := hincrby (hincrby rs.stats "total_retries" 1)
                       "currently_processing" (-1) }) := by
    simp only [RedisMessageQueue.fail, hr, if_pos hrretry, hzadd]
  refine ⟨by rw [hmem], ?_, ?_, by rw [hrmem], ?_, ?_⟩
  · rw [hmem]; simp
  · intro hfull; rw [hmem]; simp; omega
  · rw [hrmem]; simp
  · intro hfull; rw [hrmem]; simp; omega

/-- Witness for C10: a single in-flight job with attempts remaining on
each backend; the retried job lands in pending even though `max_size`
is 0. -/
theorem C10_retry_bypasses_capacity_witness :
    ((({ max_size := 0, queue := [],
         processing := [(7, QueueMessage.mkDefault 7 ([] : List (String × Nat))
           MessagePriority.normal 1)],
         completed := [], next_id := 8 } : MessageQueue Nat).fail 7 "e" 2).2.queue.length
       > 0) := by
  have h := C10_retry_bypasses_capacity
    ({ max_size := 0, queue := [],
       processing := [(7, QueueMessage.mkDefault 7 ([] : List (String × Nat))
         MessagePriority.normal 1)],
       completed := [], next_id := 8 } : MessageQueue Nat)
    ({ max_size := 0, use_mock := true, queue := [],
       processing := [(7, QueueMessage.mkDefault 7 ([] : List (String × Nat))
         MessagePriority.normal 1)],
       completed := [], stats := [], next_id := 8 } : RedisMessageQueue Nat)
    7 "e" 2 (QueueMessage.mkDefault 7 [] MessagePriority.normal 1)
    (QueueMessage.mkDefault 7 [] MessagePriority.normal 1)
    (by rfl) (by decide) (by rfl) (by decide) (by intro e he; cases he)
  exact h.2.2.1 (by decide)

/-! ## Dict lemmas -/

theorem mapGet_mapSet_self {K A : Type} [DecidableEq K]
    (d : List (K × A)) (k : K) (v : A) : mapGet (mapSet d k v) k = some v := by
  induction d with
  | nil => simp [mapSet, mapGet]
  | cons p t ih =>
      by_cases hp : p.1 = k
      · simp [mapSet, hp, mapGet]
      · simp [mapSet, hp, mapGet, ih]

theorem mapGet_mapSet_ne {K A : Type} [DecidableEq K]
    (d : List (K × A)) (k k' : K) (v : A) (h : k ≠ k') :
    mapGet (mapSet d k v) k' = mapGet d k' := by
  induction d with
  | nil => simp [mapSet, mapGet, h]
  | cons p t ih =>
      by_cases hp : p.1 = k
      · simp [mapSet, hp, mapGet, h]
      · simp only [mapSet, if_neg hp, mapGet]
        by_cases hp' : p.1 = k'
        · simp [hp']
        · simp [hp', ih]

theorem mapGet_eq_none_of_not_mem {K A : Type} [DecidableEq K]
    (d : List (K × A)) (k : K) (h : k ∉ d.map Prod.fst) :
    mapGet d k = none := by
  induction d with
  | nil => rfl
  | cons p t ih =>
      simp only [List.map_cons, List.mem_cons] at h
      push_neg at h
      rw [mapGet, if_neg (fun hp => h.1 hp.symm), ih h.2]

theorem mapGet_mapDel_self {K A : Type} [DecidableEq K]
    (d : List (K × A)) (k : K) (h : (d.map Prod.fst).Nodup) :
    mapGet (mapDel d k) k = none := by
  induction d with
  | nil => rfl
  | cons p t ih =>
      simp only [List.map_cons, List.nodup_cons] at h
      by_cases hp : p.1 = k
      · rw [mapDel, if_pos hp]
        exact mapGet_eq_none_of_not_mem t k (hp ▸ h.1)
      · rw [mapDel, if_neg hp, mapGet, if_neg hp, ih h.2]

theorem mapGet_mapDel_ne {K A : Type} [DecidableEq K]
    (d : List (K × A)) (k k' : K) (h : k ≠ k')
    (hnd : (d.map Prod.fst).Nodup) :
    mapGet (mapDel d k) k' = mapGet d k' := by
  induction d with
  | nil => rfl
  | cons p t ih =>
      simp only [List.map_cons, List.nodup_cons] at hnd
      by_cases hp : p.1 = k
      · rw [mapDel, if_pos hp, mapGet, if_neg (fun hp' => h (hp ▸ hp'))]
      · rw [mapDel, if_neg hp, mapGet, mapGet]
        by_cases hp' : p.1 = k'
        · simp [hp']
        · simp [hp', ih hnd.2]

/-- The shallow key-union with right precedence computed by
`payload.update(result)`. -/
theorem mapGet_dictUpdate {V : Type} (d r : List (String × V)) (k : String)
    (hr : (r.map Prod.fst).Nodup) :
    mapGet (dictUpdate d r) k =
      match mapGet r k with
      | some v => some v
      | none => mapGet d k := by
  induction r generalizing d with
  | nil => rfl
  | cons p t ih =>
      simp only [List.map_cons, List.nodup_cons] at hr
      have hstep : dictUpdate d (p :: t) = dictUpdate (mapSet d p.1 p.2) t := rfl
      rw [hstep, ih _ hr.2]
      by_cases hp : p.1 = k
      · have ht : mapGet t k = none :=
          mapGet_eq_none_of_not_mem t k (hp ▸ hr.1)
        have hs : mapGet (mapSet d p.1 p.2) k = some p.2 :=
          hp ▸ mapGet_mapSet_self d p.1 p.2
        simp [mapGet, ht, hs, hp, mapGet_mapSet_self]
      · cases hmt : mapGet t k with
        | none => simp [mapGet, hp, hmt, mapGet_mapSet_ne d p.1 k p.2 hp]
        | some v => simp [mapGet, hp, hmt]

/-- C7.  On both backends, a successful acknowledgement of an in-flight
job merges the result document into the payload as a shallow key-union
with result keys winning, transitions the record to COMPLETED, stamps
`completed_at`, and the status query then reports the completed record
with the merged payload. -/
theorem C7_success_merges_result {V : Type} [DecidableEq V]
    (s : MessageQueue V) (rs : RedisMessageQueue V) (message_id : Nat)
    (r : List (String × V)) (now : Nat) (m rm : QueueMessage V)
    (h : mapGet s.processing message_id = some m)
    (hqid : ∀ mq ∈ s.queue, mq.id ≠ message_id)
    (hnodup : (s.processing.map Prod.fst).Nodup)
    (hrkeys : (r.map Prod.fst).Nodup)
    (hrget : mapGet rs.processing message_id = some rm)
    (hrqid : ∀ e ∈ rs.queue, e.1.id ≠ message_id)
    (hrnodup : (rs.processing.map Prod.fst).Nodup) :
    (s.complete message_id (some r) now).1 = true ∧
    (∃ m1, (s.complete message_id (some r) now).2.get_status message_id =
        some m1 ∧
      m1.status = QueueStatus.completed ∧ m1.completed_at = some now ∧
      ∀ k, mapGet m1.payload k =
        match mapGet r k with
        | some v => some v
        | none => mapGet m.payload k) ∧
    (rs.complete message_id (some r) now).1 = true ∧
    (∃ m1, (rs.complete message_id (some r) now).2.get_status message_id =
        some m1 ∧
      m1.status = QueueStatus.completed ∧ m1.completed_at = some now ∧
      ∀ k, mapGet m1.payload k =
        match mapGet r k with
        | some v => some v
        | none => mapGet rm.payload k) := by
  have hpay : ∀ (mm : QueueMessage V), ∀ k,
      mapGet (if r.isEmpty then mm.payload else dictUpdate mm.payload r) k =
        match mapGet r k with
        | some v => some v
        | none => mapGet mm.payload k := by
    intro mm k
    by_cases he : r.isEmpty
    · have : r = [] := List.isEmpty_iff.mp he
      subst this
      simp [mapGet]
    · rw [if_neg he, mapGet_dictUpdate mm.payload r k hrkeys]
  constructor
  · simp only [MessageQueue.complete, h]
  constructor
  · have hg : (s.complete message_id (some r) now).2.get_status message_id =
        some { m with
                 status := QueueStatus.completed,
                 completed_at := some now,
                 payload := if r.isEmpty then m.payload
                            else dictUpdate m.payload r } := by
      simp only [MessageQueue.complete, h, MessageQueue.get_status]
      rw [List.find?_eq_none.mpr
        (fun mq hmq => by simpa using hqid mq hmq)]
      simp only [mapGet_mapDel_self s.processing message_id hnodup,
        mapGet_mapSet_self]
    exact ⟨_, hg, rfl, rfl, hpay m⟩
  constructor
  · simp only [RedisMessageQueue.complete, hrget]
  · have hg : (rs.complete message_id (some r) now).2.get_status message_id =
        some { rm with
                 status := QueueStatus.completed,
                 completed_at := some now,
                 payload := if r.isEmpty then rm.payload
                            else dictUpdate rm.payload r } := by
      simp only [RedisMessageQueue.complete, hrget,
        RedisMessageQueue.get_status]
      rw [List.find?_eq_none.mpr
        (fun mq hmq => by
          simp only [List.mem_map] at hmq
          obtain ⟨e, he, rfl⟩ := hmq
          simpa using hrqid e he)]
      simp only [mapGet_mapDel_self rs.processing message_id hrnodup,
        mapGet_mapSet_self]
    exact ⟨_, hg, rfl, rfl, hpay rm⟩

/-- Witness for C7: one in-flight job on each backend, completed with a
one-key result document. -/
theorem C7_success_merges_result_witness :
    ((({ max_size := 5, queue := [],
         processing := [(1, QueueMessage.mkDefault 1 [("coverage", 150000)]
           MessagePriority.normal 0)],
         completed := [], next_id := 2 } : MessageQueue Nat).complete 1
        (some [("decision", 7)]) 4).1 = true) := by
  have h := C7_success_merges_result
    ({ max_size := 5, queue := [],
       processing := [(1, QueueMessage.mkDefault 1 [("coverage", 150000)]
         MessagePriority.normal 0)],
       completed := [], next_id := 2 } : MessageQueue Nat)
    ({ max_size := 5, use_mock := true, queue := [],
       processing := [(1, QueueMessage.mkDefault 1 [("coverage", 150000)]
         MessagePriority.normal 0)],
       completed := [], stats := [], next_id := 2 } : RedisMessageQueue Nat)
    1 [("decision", 7)] 4
    (QueueMessage.mkDefault 1 [("coverage", 150000)] MessagePriority.normal 0)
    (QueueMessage.mkDefault 1 [("coverage", 150000)] MessagePriority.normal 0)
    (by rfl) (by intro mq hmq; cases hmq) (by decide) (by decide)
    (by rfl) (by intro e he; cases he) (by decide)
  exact h.1

/-- `zadd` always leaves the added member in the sorted set. -/
theorem zadd_self_mem {V : Type} [DecidableEq V]
    (l : List (QueueMessage V × Int)) (m : QueueMessage V) (score : Int) :
    (m, score) ∈ zadd l m score := by
  induction l with
  | nil => exact List.mem_singleton.mpr rfl
  | cons e t ih =>
      rw [zadd]
      by_cases he : e.1 = m
      · rw [if_pos he]; exact List.mem_cons_self _ _
      · rw [if_neg he]; exact List.mem_cons_of_mem e ih

/-- `zpopmin(count=1)` on a nonempty sorted set pops exactly one member
of the set and shrinks it by one. -/
theorem zpopmin1_nonempty {V : Type} [DecidableEq V]
    {l : List (QueueMessage V × Int)} (h : l ≠ []) :
    ∃ e, (zpopmin1 l).1 = [e] ∧ e ∈ l ∧
      (zpopmin1 l).2 = l.eraseP (fun x => decide (x.1 = e.1)) ∧
      (zpopmin1 l).2.length = l.length - 1 := by
  have hlen : (l.mergeSort scoreLE).length = l.length :=
    List.length_mergeSort l
  match hs : l.mergeSort scoreLE with
  | [] =>
      rw [hs] at hlen
      exact absurd (List.length_eq_zero.mp hlen.symm) h
  | e :: rest =>
      have he : e ∈ l := by
        have : e ∈ l.mergeSort scoreLE := hs ▸ List.mem_cons_self e rest
        exact List.mem_mergeSort.mp this
      refine ⟨e, ?_, he, ?_, ?_⟩
      · simp [zpopmin1, hs]
      · simp [zpopmin1, hs]
      · have h2 : (zpopmin1 l).2 =
            l.eraseP (fun x => decide (x.1 = e.1)) := by
          simp [zpopmin1, hs]
        rw [h2]
        exact List.length_eraseP_of_mem he (by simp)

/-- A full pending list makes `MessageQueue.enqueue` raise. -/
theorem enqueue_full {V : Type} (s : MessageQueue V)
    (p : List (String × V)) (pr : MessagePriority) (now : Nat)
    (h : s.queue.length ≥ s.max_size) :
    s.enqueue p pr now = .error "Queue is full" := by
  unfold MessageQueue.enqueue
  rw [if_pos h]

/-- A non-full pending list makes `MessageQueue.enqueue` succeed with
the fresh id and the re-sorted pending list. -/
theorem enqueue_ok {V : Type} (s : MessageQueue V)
    (p : List (String × V)) (pr : MessagePriority) (now : Nat)
    (h : s.queue.length < s.max_size) :
    s.enqueue p pr now = .ok (s.next_id,
      { s with
          queue := (s.queue ++
            [QueueMessage.mkDefault s.next_id p pr now]).mergeSort msgLE,
          next_id := s.next_id + 1 }) := by
  unfold MessageQueue.enqueue
  rw [if_neg (Nat.not_le.mpr h)]
  rfl

/-- A full pending sorted set makes `RedisMessageQueue.enqueue` raise. -/
theorem renqueue_full {V : Type} [DecidableEq V] (s : RedisMessageQueue V)
    (p : List (String × V)) (pr : MessagePriority) (now : Nat)
    (h : s.queue.length ≥ s.max_size) :
    s.enqueue p pr now = .error "Queue is full" := by
  unfold RedisMessageQueue.enqueue
  rw [if_pos h]

/-- A non-full pending sorted set makes `RedisMessageQueue.enqueue`
succeed with the fresh id, the `zadd`-ed member and the bumped
counter. -/
theorem renqueue_ok {V : Type} [DecidableEq V] (s : RedisMessageQueue V)
    (p : List (String × V)) (pr : MessagePriority) (now : Nat)
    (h : s.queue.length < s.max_size) :
    s.enqueue p pr now = .ok (s.next_id,
      { s with
          queue := zadd s.queue (QueueMessage.mkDefault s.next_id p pr now)
            (-((QueueMessage.mkDefault s.next_id p pr now).priority.value :
                Int)),
          stats := hincrby s.stats "total_enqueued" 1,
          next_id := s.next_id + 1 }) := by
  unfold RedisMessageQueue.enqueue
  rw [if_neg (Nat.not_le.mpr h)]
  rfl

/-- C6.  On both backends, `enqueue` fails exactly when the pending set
is at `max_size` (in-flight and terminal records are not counted);
otherwise it creates a PENDING record visible in the pending set, and
after one `dequeue` frees a slot in a full queue the next `enqueue`
succeeds. -/
theorem C6_capacity_is_pending_only {V : Type} [DecidableEq V]
    (s : MessageQueue V) (rs : RedisMessageQueue V)
    (p : List (String × V)) (pr : MessagePriority) (now now2 : Nat) :
    (s.queue.length ≥ s.max_size →
      s.enqueue p pr now = .error "Queue is full") ∧
    (s.queue.length < s.max_size →
      ∃ s1, s.enqueue p pr now = .ok (s.next_id, s1) ∧
        QueueMessage.mkDefault s.next_id p pr now ∈ s1.queue ∧
        (QueueMessage.mkDefault s.next_id p pr now).status =
          QueueStatus.pending) ∧
    (s.queue.length = s.max_size → 0 < s.max_size →
      ∃ m s1, s.dequeue now = some (m, s1) ∧
        ∃ s2, s1.enqueue p pr now2 = .ok (s1.next_id, s2)) ∧
    (rs.queue.length ≥ rs.max_size →
      rs.enqueue p pr now = .error "Queue is full") ∧
    (rs.queue.length < rs.max_size →
      ∃ s1, rs.enqueue p pr now = .ok (rs.next_id, s1) ∧
        QueueMessage.mkDefault rs.next_id p pr now ∈
          s1.queue.map Prod.fst ∧
        (QueueMessage.mkDefault rs.next_id p pr now).status =
          QueueStatus.pending) ∧
    (rs.queue.length = rs.max_size → 0 < rs.max_size →
      ∃ m s1, rs.dequeue now = (some m, s1) ∧
        ∃ s2, s1.enqueue p pr now2 = .ok (s1.next_id, s2)) := by
  refine ⟨?_, ?_, ?_, ?_, ?_, ?_⟩
  · intro hfull
    exact enqueue_full s p pr now hfull
  · intro hroom
    exact ⟨_, enqueue_ok s p pr now hroom,
      List.mem_mergeSort.mpr (List.mem_append_right _
        (List.mem_singleton.mpr rfl)), rfl⟩
  · intro hfull hpos
    match hq : s.queue with
    | [] => rw [hq] at hfull; simp at hfull; omega
    | m :: rest =>
        have hlen : rest.length < s.max_size := by
          rw [hq] at hfull
          simp only [List.length_cons] at hfull
          omega
        have hdq : s.dequeue now = some
            ({ m with status := QueueStatus.processing,
                      started_at := some now },
             { s with queue := rest,
                      processing := mapSet s.processing m.id
                        { m with status := QueueStatus.processing,
                                 started_at := some now } }) := by
          simp [MessageQueue.dequeue, hq]
        exact ⟨_, _, hdq, _, enqueue_ok _ p pr now2 hlen⟩
  · intro hfull
    exact renqueue_full rs p pr now hfull
  · intro hroom
    exact ⟨_, renqueue_ok rs p pr now hroom,
      List.mem_map_of_mem Prod.fst (zadd_self_mem rs.queue _ _), rfl⟩
  · intro hfull hpos
    have hne : rs.queue ≠ [] := by
      intro hnil
      rw [hnil] at hfull
      simp at hfull
      omega
    obtain ⟨e, he1, _, _, helen⟩ := zpopmin1_nonempty hne
    have hdq : rs.dequeue now = (some
        { e.1 with status := QueueStatus.processing,
                   started_at := some now },
        { rs with queue := (zpopmin1 rs.queue).2,
                  processing := mapSet rs.processing e.1.id
                    { e.1 with status := QueueStatus.processing,
                               started_at := some now },
                  stats := hincrby (hincrby rs.stats "total_dequeued" 1)
                             "currently_processing" 1 }) := by
      simp only [RedisMessageQueue.dequeue, he1]
    have hlen : (zpopmin1 rs.queue).2.length < rs.max_size := by
      rw [helen, hfull]
      omega
    exact ⟨_, _, hdq, _, renqueue_ok _ p pr now2 hlen⟩

/-- Witness for C6: a full one-slot queue on each backend rejects a new
job; in-memory shown by evaluating the error branch. -/
theorem C6_capacity_is_pending_only_witness :
    (({ max_size := 1,
        queue := [QueueMessage.mkDefault 0 ([] : List (String × Nat))
          MessagePriority.low 0],
        processing := [], completed := [], next_id := 1 } :
          MessageQueue Nat).enqueue [] MessagePriority.high 5 =
      .error "Queue is full") := by
  have h := C6_capacity_is_pending_only
    ({ max_size := 1,
       queue := [QueueMessage.mkDefault 0 ([] : List (String × Nat))
         MessagePriority.low 0],
       processing := [], completed := [], next_id := 1 } : MessageQueue Nat)
    (RedisMessageQueue.empty Nat 1) [] MessagePriority.high 5 6
  exact h.1 (by decide)

/-! ## Sweep lemmas -/

/-- With pairwise-distinct keys, deleting one key is filtering it out. -/
theorem mapDel_eq_filter {K A : Type} [DecidableEq K]
    (d : List (K × A)) (k : K) (hnd : (d.map Prod.fst).Nodup) :
    mapDel d k = d.filter (fun p => decide (p.1 ≠ k)) := by
  induction d with
  | nil => rfl
  | cons p t ih =>
      simp only [List.map_cons, List.nodup_cons] at hnd
      by_cases hp : p.1 = k
      · rw [mapDel, if_pos hp]
        rw [List.filter_cons_of_neg (by simp [hp])]
        refine (List.filter_eq_self.mpr ?_).symm
        intro q hq
        simp only [decide_eq_true_eq]
        intro hqk
        exact hnd.1 (hp ▸ hqk ▸ List.mem_map_of_mem Prod.fst hq)
      · rw [mapDel, if_neg hp, List.filter_cons_of_pos (by simp [hp]),
          ih hnd.2]

/-- Keys of a filtered dict stay pairwise distinct. -/
theorem nodup_keys_filter {K A : Type} (d : List (K × A))
    (q : K × A → Bool) (hnd : (d.map Prod.fst).Nodup) :
    ((d.filter q).map Prod.fst).Nodup :=
  hnd.sublist ((d.filter_sublist).map Prod.fst)

/-- Deleting a list of keys off a distinct-key dict is filtering them
out. -/
theorem foldl_mapDel_eq_filter {K A : Type} [DecidableEq K]
    (ks : List K) (d : List (K × A)) (hnd : (d.map Prod.fst).Nodup) :
    ks.foldl mapDel d = d.filter (fun p => decide (p.1 ∉ ks)) := by
  induction ks generalizing d with
  | nil => simp
  | cons k ks ih =>
      have h1 : (k :: ks).foldl mapDel d = ks.foldl mapDel (mapDel d k) :=
        rfl
      rw [h1, mapDel_eq_filter d k hnd,
        ih _ (nodup_keys_filter d _ hnd), List.filter_filter]
      refine List.filter_congr ?_
      intro p _
      by_cases h2 : p.1 = k
      · simp [h2]
      · by_cases h3 : p.1 ∈ ks <;> simp [h2, h3]

/-- Distinct keys identify entries. -/
theorem key_inj {K A : Type} (d : List (K × A))
    (hnd : (d.map Prod.fst).Nodup) {p q : K × A} (hp : p ∈ d) (hq : q ∈ d)
    (h : p.1 = q.1) : p = q :=
  List.inj_on_of_nodup_map hnd hp hq h

/-- The filter `completed_at and completed_at < cutoff` used by the
sweepers. -/
def isOldAt {V : Type} (now older_than_hours : Nat)
    (p : Nat × QueueMessage V) : Bool :=
  match p.2.completed_at with
  | some c => decide ((c : Int) < cutoffTime now older_than_hours)
  | none => false

/-- C8 (code-bug evidence).  The in-process sweeper removes exactly the
terminal records whose completion timestamp predates `now - T`, returns
the number removed, and leaves pending and in-flight untouched; but on
the durable backend in store-fallback mode `cleanup_old_messages` raises
(`self._redis` is `None` and the method has no mock branch), instead of
sweeping the fallback store. -/
theorem C8_sweep_only_old_terminal {V : Type} [DecidableEq V]
    (s : MessageQueue V) (rs : RedisMessageQueue V)
    (now older_than_hours : Nat)
    (hnd : (s.completed.map Prod.fst).Nodup)
    (hmock : rs.use_mock = true) :
    (s.cleanup_old_messages now older_than_hours).2.queue = s.queue ∧
    (s.cleanup_old_messages now older_than_hours).2.processing =
      s.processing ∧
    (s.cleanup_old_messages now older_than_hours).2.completed =
      s.completed.filter (fun p => !(isOldAt now older_than_hours p)) ∧
    (s.cleanup_old_messages now older_than_hours).1 =
      (s.completed.filter (isOldAt now older_than_hours)).length ∧
    rs.cleanup_old_messages now older_than_hours =
      .error "AttributeError: NoneType object has no attribute hgetall" := by
  refine ⟨rfl, rfl, ?_, ?_, ?_⟩
  · show ((s.completed.filter (isOldAt now older_than_hours)).map
        Prod.fst).foldl mapDel s.completed =
      s.completed.filter (fun p => !(isOldAt now older_than_hours p))
    rw [foldl_mapDel_eq_filter _ _ hnd]
    refine List.filter_congr ?_
    intro p hp
    by_cases hold : isOldAt now older_than_hours p
    · have hmem : p.1 ∈ (s.completed.filter
          (isOldAt now older_than_hours)).map Prod.fst :=
        List.mem_map_of_mem Prod.fst (List.mem_filter.mpr ⟨hp, hold⟩)
      simp [hmem, hold]
    · have hmem : p.1 ∉ (s.completed.filter
          (isOldAt now older_than_hours)).map Prod.fst := by
        intro hin
        obtain ⟨q, hq, hqk⟩ := List.mem_map.mp hin
        obtain ⟨hq1, hq2⟩ := List.mem_filter.mp hq
        exact hold (key_inj s.completed hnd hp hq1 hqk.symm ▸ hq2)
      simp [hmem, hold]
  · show ((s.completed.filter (isOldAt now older_than_hours)).map
        Prod.fst).length = _
    rw [List.length_map]
  · show RedisMessageQueue.cleanup_old_messages rs now older_than_hours = _
    unfold RedisMessageQueue.cleanup_old_messages
    rw [if_pos hmock]

/-- Witness for C8: a backend holding one stale and one fresh terminal
record sweeps exactly the stale one; the fallen-back durable backend
raises instead. -/
theorem C8_sweep_only_old_terminal_witness :
    ((({ max_size := 5, queue := [], processing := [],
         completed :=
           [(0, { QueueMessage.mkDefault 0 ([] : List (String × Nat))
                    MessagePriority.low 0 with
                    status := QueueStatus.completed, completed_at := some 0 }),
            (1, { QueueMessage.mkDefault 1 ([] : List (String × Nat))
                    MessagePriority.low 1 with
                    status := QueueStatus.completed,
                    completed_at := some 999999 })],
         next_id := 2 } : MessageQueue Nat).cleanup_old_messages 1000000
        24).1 = 1) := by
  have h := C8_sweep_only_old_terminal
    ({ max_size := 5, queue := [], processing := [],
       completed :=
         [(0, { QueueMessage.mkDefault 0 ([] : List (String × Nat))
                  MessagePriority.low 0 with
                  status := QueueStatus.completed, completed_at := some 0 }),
          (1, { QueueMessage.mkDefault 1 ([] : List (String × Nat))
                  MessagePriority.low 1 with
                  status := QueueStatus.completed,
                  completed_at := some 999999 })],
       next_id := 2 } : MessageQueue Nat)
    ({ RedisMessageQueue.empty Nat 5 with use_mock := true })
    1000000 24 (by decide) (by rfl)
  rw [h.2.2.2.1]
  decide

/-! ## Claim / acknowledge-failure cycles (C3) -/

/-- One claim / acknowledge-failure cycle against the in-process
backend: `dequeue` the head job, then `fail` it. -/
def cycleFail {V : Type} (err : String) (t : Nat) (s : MessageQueue V) :
    MessageQueue V :=
  match s.dequeue t with
  | none => s
  | some (m, s1) => (s1.fail m.id err t).2

/-- One claim / acknowledge-failure cycle against the durable backend. -/
def cycleFailR {V : Type} [DecidableEq V] (err : String) (t : Nat)
    (s : RedisMessageQueue V) : RedisMessageQueue V :=
  match s.dequeue t with
  | (none, s1) => s1
  | (some m, s1) => (s1.fail m.id err t).2

/-- The single tracked job after `k` failed attempts: back in PENDING
with `retry_count = k` and the error of the last failure. -/
def retryMsgAt {V : Type} (id : Nat) (payload : List (String × V))
    (pr : MessagePriority) (created mr ts : Nat) (err : String) (k : Nat) :
    QueueMessage V :=
  { id := id, payload := payload, priority := pr,
    status := QueueStatus.pending, created_at := created,
    started_at := none, completed_at := none,
    error_message := if k = 0 then none else some err,
    retry_count := k, max_retries := mr, timeout_seconds := ts }

/-- In-process backend holding only the tracked job after `k` failed
attempts. -/
def retryStateAt {V : Type} (ms nid : Nat) (id : Nat)
    (payload : List (String × V)) (pr : MessagePriority)
    (created mr ts : Nat) (err : String) (k : Nat) : MessageQueue V :=
  { max_size := ms,
    queue := [retryMsgAt id payload pr created mr ts err k],
    processing := [], completed := [], next_id := nid }

/-- The tracked job once the `mr`-th failure turns it terminal. -/
def failedMsg {V : Type} (id : Nat) (payload : List (String × V))
    (pr : MessagePriority) (created mr ts : Nat) (err : String) (t : Nat) :
    QueueMessage V :=
  { id := id, payload := payload, priority := pr,
    status := QueueStatus.failed, created_at := created,
    started_at := some t, completed_at := some t,
    error_message := some err, retry_count := mr, max_retries := mr,
    timeout_seconds := ts }

theorem cycleFail_iter {V : Type} (ms nid id : Nat)
    (payload : List (String × V)) (pr : MessagePriority)
    (created mr ts : Nat) (err : String) (t : Nat) :
    ∀ k, k < mr →
      (cycleFail err t)^[k]
          (retryStateAt ms nid id payload pr created mr ts err 0) =
        retryStateAt ms nid id payload pr created mr ts err k := by
  intro k
  induction k with
  | zero => intro _; rfl
  | succ n ih =>
      intro hk
      have hn : n < mr := Nat.lt_of_succ_lt hk
      rw [Function.iterate_succ_apply', ih hn]
      simp only [cycleFail, MessageQueue.dequeue, MessageQueue.fail,
        retryStateAt, retryMsgAt, mapSet, mapGet, mapDel, if_pos rfl,
        List.nil_append]
      simp [hk, Nat.succ_ne_zero]

theorem cycleFail_final {V : Type} (ms nid id : Nat)
    (payload : List (String × V)) (pr : MessagePriority)
    (created mr ts : Nat) (err : String) (t : Nat) (hmr : 0 < mr) :
    (cycleFail err t)^[mr]
        (retryStateAt ms nid id payload pr created mr ts err 0) =
      { max_size := ms, queue := [], processing := [],
        completed := [(id, failedMsg id payload pr created mr ts err t)],
        next_id := nid } := by
  obtain ⟨n, rfl⟩ : ∃ n, mr = n + 1 := ⟨mr - 1, by omega⟩
  rw [Function.iterate_succ_apply',
    cycleFail_iter ms nid id payload pr created (n + 1) ts err t n
      (Nat.lt_succ_self n)]
  simp only [cycleFail, MessageQueue.dequeue, MessageQueue.fail,
    retryStateAt, retryMsgAt, failedMsg, mapSet, mapGet, mapDel,
    if_pos rfl, List.nil_append]
  simp [Nat.lt_irrefl]

theorem cycleFailR_iter {V : Type} [DecidableEq V] (ms nid id : Nat)
    (um : Bool) (payload : List (String × V)) (pr : MessagePriority)
    (created mr ts : Nat) (err : String) (t : Nat)
    (st0 : List (String × Int)) :
    ∀ k, k < mr → ∃ st,
      (cycleFailR err t)^[k]
          { max_size := ms, use_mock := um,
            queue := [(retryMsgAt id payload pr created mr ts err 0,
              -(pr.value : Int))],
            processing := [], completed := [], stats := st0,
            next_id := nid } =
        ({ max_size := ms, use_mock := um,
           queue := [(retryMsgAt id payload pr created mr ts err k,
             -(pr.value : Int))],
           processing := [], completed := [], stats := st,
           next_id := nid } : RedisMessageQueue V) := by
  intro k
  induction k with
  | zero => intro _; exact ⟨st0, rfl⟩
  | succ n ih =>
      intro hk
      obtain ⟨st, hst⟩ := ih (Nat.lt_of_succ_lt hk)
      refine ⟨hincrby (hincrby (hincrby (hincrby st "total_dequeued" 1)
        "currently_processing" 1) "total_retries" 1)
        "currently_processing" (-1), ?_⟩
      rw [Function.iterate_succ_apply', hst]
      simp only [cycleFailR, RedisMessageQueue.dequeue,
        RedisMessageQueue.fail, zpopmin1, List.mergeSort_singleton,
        retryMsgAt, mapSet, mapGet, mapDel, zadd, if_pos rfl,
        List.take_cons, List.take_nil, List.foldl_cons, List.foldl_nil]
      simp [mapGet, mapSet, mapDel, zadd, hk, Nat.succ_ne_zero]

theorem cycleFailR_final {V : Type} [DecidableEq V] (ms nid id : Nat)
    (um : Bool) (payload : List (String × V)) (pr : MessagePriority)
    (created mr ts : Nat) (err : String) (t : Nat)
    (st0 : List (String × Int)) (hmr : 0 < mr) :
    ∃ st,
      (cycleFailR err t)^[mr]
          { max_size := ms, use_mock := um,
            queue := [(retryMsgAt id payload pr created mr ts err 0,
              -(pr.value : Int))],
            processing := [], completed := [], stats := st0,
            next_id := nid } =
        ({ max_size := ms, use_mock := um, queue := [], processing := [],
           completed := [(id, failedMsg id payload pr created mr ts err t)],
           stats := st, next_id := nid } : RedisMessageQueue V) := by
  obtain ⟨n, rfl⟩ : ∃ n, mr = n + 1 := ⟨mr - 1, by omega⟩
  obtain ⟨st, hst⟩ := cycleFailR_iter ms nid id um payload pr created
    (n + 1) ts err t st0 n (Nat.lt_succ_self n)
  refine ⟨hincrby (hincrby (hincrby (hincrby st "total_dequeued" 1)
    "currently_processing" 1) "total_failed" 1)
    "currently_processing" (-1), ?_⟩
  rw [Function.iterate_succ_apply', hst]
  simp only [cycleFailR, RedisMessageQueue.dequeue,
    RedisMessageQueue.fail, zpopmin1, List.mergeSort_singleton,
    retryMsgAt, failedMsg, mapSet, mapGet, mapDel, if_pos rfl,
    List.take_cons, List.take_nil, List.foldl_cons, List.foldl_nil]
  simp [mapGet, mapSet, mapDel, zadd, Nat.lt_irrefl]

/-- C3.  On both backends, after `k < max_retries` claim/fail cycles the
job sits in PENDING with `retry_count = k`; the `max_retries`-th failure
turns it FAILED (never back to PENDING) with
`retry_count = max_retries`, and any further `fail` on that id returns
`False`. -/
theorem C3_attempt_counting {V : Type} [DecidableEq V] (ms nid id : Nat)
    (um : Bool) (payload : List (String × V)) (pr : MessagePriority)
    (created mr ts : Nat) (err : String) (t : Nat)
    (st0 : List (String × Int)) (k : Nat) (hk : k < mr) (hmr : 0 < mr) :
    (((cycleFail err t)^[k]
        (retryStateAt ms nid id payload pr created mr ts err 0)).queue =
      [retryMsgAt id payload pr created mr ts err k] ∧
     (retryMsgAt id payload pr created mr ts err k :
        QueueMessage V).retry_count = k ∧
     (retryMsgAt id payload pr created mr ts err k :
        QueueMessage V).status = QueueStatus.pending) ∧
    ((cycleFail err t)^[mr]
        (retryStateAt ms nid id payload pr created mr ts err 0) =
      { max_size := ms, queue := [], processing := [],
        completed := [(id, failedMsg id payload pr created mr ts err t)],
        next_id := nid } ∧
     (failedMsg id payload pr created mr ts err t :
        QueueMessage V).retry_count = mr ∧
     (failedMsg id payload pr created mr ts err t :
        QueueMessage V).status = QueueStatus.failed ∧
     (({ max_size := ms, queue := [], processing := [],
         completed := [(id, failedMsg id payload pr created mr ts err t)],
         next_id := nid } : MessageQueue V).fail id err t).1 = false) ∧
    ((∃ st,
      (cycleFailR err t)^[k]
          { max_size := ms, use_mock := um,
            queue := [(retryMsgAt id payload pr created mr ts err 0,
              -(pr.value : Int))],
            processing := [], completed := [], stats := st0,
            next_id := nid } =
        ({ max_size := ms, use_mock := um,
           queue := [(retryMsgAt id payload pr created mr ts err k,
             -(pr.value : Int))],
           processing := [], completed := [], stats := st,
           next_id := nid } : RedisMessageQueue V)) ∧
     (∃ st,
      (cycleFailR err t)^[mr]
          { max_size := ms, use_mock := um,
            queue := [(retryMsgAt id payload pr created mr ts err 0,
              -(pr.value : Int))],
            processing := [], completed := [], stats := st0,
            next_id := nid } =
        ({ max_size := ms, use_mock := um, queue := [], processing := [],
           completed := [(id, failedMsg id payload pr created mr ts err t)],
           stats := st, next_id := nid } : RedisMessageQueue V)) ∧
     ∀ st, (({ max_size := ms, use_mock := um, queue := [],
               processing := [],
               completed :=
                 [(id, failedMsg id payload pr created mr ts err t)],
               stats := st, next_id := nid } :
                 RedisMessageQueue V).fail id err t).1 = false) := by
  refine ⟨⟨?_, rfl, rfl⟩, ⟨?_, rfl, rfl, rfl⟩, ?_, ?_, ?_⟩
  · rw [cycleFail_iter ms nid id payload pr created mr ts err t k hk]
    rfl
  · exact cycleFail_final ms nid id payload pr created mr ts err t hmr
  · exact cycleFailR_iter ms nid id um payload pr created mr ts err t st0
      k hk
  · exact cycleFailR_final ms nid id um payload pr created mr ts err t
      st0 hmr
  · intro st
    rfl

/-- Witness for C3: `max_retries = 3`, two cycles leave the job pending
with `retry_count = 2`. -/
theorem C3_attempt_counting_witness :
    ((cycleFail "boom" 9)^[2]
        (retryStateAt 10 1 0 ([] : List (String × Nat))
          MessagePriority.normal 5 3 300 "boom" 0)).queue =
      [retryMsgAt 0 [] MessagePriority.normal 5 3 300 "boom" 2] := by
  have h := C3_attempt_counting 10 1 0 true ([] : List (String × Nat))
    MessagePriority.normal 5 3 300 "boom" 9 [] 2 (by decide) (by decide)
  exact h.1.1

/-! ## Operation scripts over the contract (C2, C5) -/

/-- One contract operation with its call arguments and call time. -/
inductive QOp (V : Type) where
  | enq (payload : List (String × V)) (priority : MessagePriority)
      (now : Nat)
  | deq (now : Nat)
  | comp (message_id : Nat) (result : Option (List (String × V)))
      (now : Nat)
  | ack_fail (message_id : Nat) (error_message : String) (now : Nat)
  | sweep (now older_than_hours : Nat)

/-- The caller-observable outcome of one contract operation. -/
inductive OpOut (V : Type) where
  | idOut (r : Except String Nat)
  | msgOut (r : Option Nat)
  | boolOut (b : Bool)
  | countOut (r : Except String Nat)

/-- Dispatch one operation against the in-process backend (a raised
`ValueError` leaves the state unchanged). -/
def MessageQueue.runOp {V : Type} (s : MessageQueue V) :
    QOp V → OpOut V × MessageQueue V
  | .enq p pr now =>
      match s.enqueue p pr now with
      | .ok (i, s1) => (.idOut (.ok i), s1)
      | .error e => (.idOut (.error e), s)
  | .deq now =>
      match s.dequeue now with
      | none => (.msgOut none, s)
      | some (m, s1) => (.msgOut (some m.id), s1)
  | .comp message_id result now =>
      (.boolOut (s.complete message_id result now).1,
       (s.complete message_id result now).2)
  | .ack_fail message_id err now =>
      (.boolOut (s.fail message_id err now).1,
       (s.fail message_id err now).2)
  | .sweep now h =>
      (.countOut (.ok (s.cleanup_old_messages now h).1),
       (s.cleanup_old_messages now h).2)

/-- Dispatch one operation against the durable backend. -/
def RedisMessageQueue.runOp {V : Type} [DecidableEq V]
    (s : RedisMessageQueue V) : QOp V → OpOut V × RedisMessageQueue V
  | .enq p pr now =>
      match s.enqueue p pr now with
      | .ok (i, s1) => (.idOut (.ok i), s1)
      | .error e => (.idOut (.error e), s)
  | .deq now =>
      (.msgOut ((s.dequeue now).1.map (fun m => m.id)),
       (s.dequeue now).2)
  | .comp message_id result now =>
      (.boolOut (s.complete message_id result now).1,
       (s.complete message_id result now).2)
  | .ack_fail message_id err now =>
      (.boolOut (s.fail message_id err now).1,
       (s.fail message_id err now).2)
  | .sweep now h =>
      match s.cleanup_old_messages now h with
      | .ok (n, s1) => (.countOut (.ok n), s1)
      | .error e => (.countOut (.error e), s)

/-- Run a script of operations, collecting the outcomes. -/
def MessageQueue.runOps {V : Type} (s : MessageQueue V) :
    List (QOp V) → List (OpOut V) × MessageQueue V
  | [] => ([], s)
  | op :: rest =>
      let r := s.runOp op
      let rr := r.2.runOps rest
      (r.1 :: rr.1, rr.2)

/-- Run a script of operations, collecting the outcomes. -/
def RedisMessageQueue.runOps {V : Type} [DecidableEq V]
    (s : RedisMessageQueue V) :
    List (QOp V) → List (OpOut V) × RedisMessageQueue V
  | [] => ([], s)
  | op :: rest =>
      let r := s.runOp op
      let rr := r.2.runOps rest
      (r.1 :: rr.1, rr.2)

/-! ## C5: store-unreachable fallback -/

/-- No contract operation ever changes `_use_mock`. -/
theorem runOp_use_mock {V : Type} [DecidableEq V]
    (s : RedisMessageQueue V) (op : QOp V) :
    (s.runOp op).2.use_mock = s.use_mock := by
  cases op with
  | enq p pr now =>
      by_cases h : s.queue.length ≥ s.max_size
      · rw [RedisMessageQueue.runOp, renqueue_full s p pr now h]
      · rw [RedisMessageQueue.runOp,
          renqueue_ok s p pr now (Nat.lt_of_not_le h)]
  | deq now =>
      rw [RedisMessageQueue.runOp]
      rw [RedisMessageQueue.dequeue]
      cases (zpopmin1 s.queue).1 with
      | nil => rfl
      | cons e rest => rfl
  | comp message_id result now =>
      rw [RedisMessageQueue.runOp]
      rw [RedisMessageQueue.complete]
      cases mapGet s.processing message_id with
      | none => rfl
      | some m =>
          by_cases h : m.retry_count + 1 < m.max_retries <;> rfl
  | ack_fail message_id err now =>
      rw [RedisMessageQueue.runOp]
      rw [RedisMessageQueue.fail]
      cases mapGet s.processing message_id with
      | none => rfl
      | some m =>
          simp only []
          by_cases h : m.retry_count + 1 < m.max_retries
          · rw [if_pos h]
          · rw [if_neg h]
  | sweep now h =>
      rw [RedisMessageQueue.runOp]
      rw [RedisMessageQueue.cleanup_old_messages]
      by_cases hm : s.use_mock = true
      · rw [if_pos hm]
      · rw [if_neg hm]

/-- No script of contract operations ever changes `_use_mock`. -/
theorem runOps_use_mock {V : Type} [DecidableEq V]
    (s : RedisMessageQueue V) (ops : List (QOp V)) :
    (s.runOps ops).2.use_mock = s.use_mock := by
  induction ops generalizing s with
  | nil => rfl
  | cons op rest ih =>
      show ((s.runOp op).2.runOps rest).2.use_mock = s.use_mock
      rw [ih, runOp_use_mock]

/-- C5 (amended).  When the store is unreachable at initialization the
durable backend permanently switches to its in-process mock store:
`_use_mock` becomes `True`, no later contract operation clears it, and
the health query forever reports `healthy` with the `using_mock` flag
raised. -/
theorem C5_fallback_permanent_mock {V : Type} [DecidableEq V]
    (s : RedisMessageQueue V) (ops : List (QOp V)) (ping_ok : Bool) :
    (s.initializeStore false).use_mock = true ∧
    ((s.initializeStore false).runOps ops).2.use_mock = true ∧
    ((s.initializeStore false).runOps ops).2.health_check ping_ok =
      { status := "healthy", redis_connected := false,
        using_mock := true } := by
  have h0 : (s.initializeStore false).use_mock = true := rfl
  have h1 : ((s.initializeStore false).runOps ops).2.use_mock = true := by
    rw [runOps_use_mock, h0]
  refine ⟨h0, h1, ?_⟩
  rw [RedisMessageQueue.health_check, if_pos h1]

/-- C5 counterexample: the fallback body is the in-process mock *store*,
not the in-process `MessageQueue` backend.  On the identical call
sequence (admit at t=7, claim at t=7, stats at t=10) the in-process
backend reports `longest_processing = 3` while the fallen-back durable
backend reports the mock path's hard-coded `0` — so callers can observe
a contract difference and the in-process backend is not what was
substituted. -/
theorem C5_fallback_not_inprocess_backend :
    ((RedisMessageQueue.empty Nat 10).initializeStore false).use_mock =
      true ∧
    (((MessageQueue.empty Nat 10).runOps
        [QOp.enq [] MessagePriority.normal 7,
         QOp.deq 7]).2.get_queue_stats 10).longest_processing = 3 ∧
    ((((RedisMessageQueue.empty Nat 10).initializeStore false).runOps
        [QOp.enq [] MessagePriority.normal 7,
         QOp.deq 7]).2.get_queue_stats).longest_processing = 0 := by
  refine ⟨rfl, ?_, ?_⟩
  · show ((((MessageQueue.empty Nat 10).runOp
        (QOp.enq [] MessagePriority.normal 7)).2.runOps
          [QOp.deq 7]).2.get_queue_stats 10).longest_processing = 3
    rw [MessageQueue.runOp, enqueue_ok _ _ _ _ (by decide)]
    simp [MessageQueue.runOps, MessageQueue.runOp, MessageQueue.dequeue,
      MessageQueue.empty, MessageQueue.get_queue_stats, mapSet,
      QueueMessage.mkDefault]
  · show (((((RedisMessageQueue.empty Nat 10).initializeStore
        false).runOp (QOp.enq [] MessagePriority.normal 7)).2.runOps
          [QOp.deq 7]).2.get_queue_stats).longest_processing = 0
    rw [RedisMessageQueue.runOp, renqueue_ok _ _ _ _ (by decide)]
    simp [RedisMessageQueue.runOps, RedisMessageQueue.runOp,
      RedisMessageQueue.dequeue, RedisMessageQueue.empty,
      RedisMessageQueue.initializeStore, RedisMessageQueue.get_queue_stats,
      zpopmin1, zadd, mapSet, QueueMessage.mkDefault]

/-! ## C1: priority order with FIFO ties -/

theorem msgLE_trans {V : Type} (a b c : QueueMessage V) (h1 : msgLE a b)
    (h2 : msgLE b c) : msgLE a c := by
  simp only [msgLE, sortKey, Bool.or_eq_true, Bool.and_eq_true,
    decide_eq_true_eq] at h1 h2 ⊢
  omega

theorem msgLE_total {V : Type} (a b : QueueMessage V) :
    msgLE a b || msgLE b a := by
  simp only [msgLE, sortKey, Bool.or_eq_true, Bool.and_eq_true,
    decide_eq_true_eq]
  omega

/-- Admit a script of `(payload, priority, time)` rows in order (an
admission rejected by a full queue raises out of `enqueue` and changes
nothing). -/
def MessageQueue.admitAll {V : Type} (s : MessageQueue V) :
    List (List (String × V) × MessagePriority × Nat) → MessageQueue V
  | [] => s
  | (p, pr, t) :: rest =>
      match s.enqueue p pr t with
      | .ok (_, s1) => s1.admitAll rest
      | .error _ => s.admitAll rest

/-- The job records a script of admissions creates, given the first
fresh id. -/
def scriptMsgs {V : Type} (nid : Nat) :
    List (List (String × V) × MessagePriority × Nat) →
      List (QueueMessage V)
  | [] => []
  | (p, pr, t) :: rest =>
      QueueMessage.mkDefault nid p pr t :: scriptMsgs (nid + 1) rest

/-- Repeatedly `dequeue` the in-process backend. -/
def drainAll {V : Type} (t : Nat) :
    Nat → MessageQueue V → List (QueueMessage V)
  | 0, _ => []
  | n + 1, s =>
      match s.dequeue t with
      | none => []
      | some (m, s1) => m :: drainAll t n s1

theorem scriptMsgs_length {V : Type} (nid : Nat)
    (script : List (List (String × V) × MessagePriority × Nat)) :
    (scriptMsgs nid script).length = script.length := by
  induction script generalizing nid with
  | nil => rfl
  | cons e rest ih =>
      obtain ⟨p, pr, t⟩ := e
      simp [scriptMsgs, ih]

/-- Draining a queue returns its pending list in order, each record
stamped PROCESSING. -/
theorem drainAll_eq {V : Type} (t : Nat) :
    ∀ (q : List (QueueMessage V)) (s : MessageQueue V), s.queue = q →
      drainAll t q.length s =
        q.map (fun m => { m with status := QueueStatus.processing,
                                 started_at := some t }) := by
  intro q
  induction q with
  | nil => intro s hs; rfl
  | cons m rest ih =>
      intro s hs
      show drainAll t (rest.length + 1) s = _
      rw [drainAll, MessageQueue.dequeue, hs]
      simp only [List.map_cons, List.cons.injEq]
      exact ⟨trivial, ih _ rfl⟩

/-- Admitting a strictly-time-increasing script into a sorted queue with
room keeps the queue sorted and adds exactly the script's records. -/
theorem admitAll_spec {V : Type} :
    ∀ (script : List (List (String × V) × MessagePriority × Nat))
      (s : MessageQueue V),
      s.queue.Pairwise (fun a b => msgLE a b) →
      (∀ m ∈ s.queue, ∀ e ∈ script, m.created_at < e.2.2) →
      script.Pairwise (fun a b => a.2.2 < b.2.2) →
      s.queue.length + script.length ≤ s.max_size →
      (s.admitAll script).queue.Pairwise (fun a b => msgLE a b) ∧
      (s.admitAll script).queue ~ s.queue ++ scriptMsgs s.next_id script
  | [], s => by
      intro hsort _ _ _
      simpa [MessageQueue.admitAll, scriptMsgs] using hsort
  | (p, pr, t) :: rest, s => by
      intro hsort hbound htimes hroom
      have hlen : s.queue.length < s.max_size := by
        simp only [List.length_cons] at hroom
        omega
      have hq : s.admitAll ((p, pr, t) :: rest) =
          ({ s with
               queue := (s.queue ++
                 [QueueMessage.mkDefault s.next_id p pr t]).mergeSort msgLE,
               next_id := s.next_id + 1 }).admitAll rest := by
        show (match s.enqueue p pr t with
              | .ok (_, s1) => s1.admitAll rest
              | .error _ => s.admitAll rest) = _
        rw [enqueue_ok s p pr t hlen]
      set m := QueueMessage.mkDefault s.next_id p pr t with hm
      set s1 : MessageQueue V :=
        { s with queue := (s.queue ++ [m]).mergeSort msgLE,
                 next_id := s.next_id + 1 } with hs1
      have hperm1 : s1.queue ~ s.queue ++ [m] :=
        List.mergeSort_perm (s.queue ++ [m]) msgLE
      have hsort1 : s1.queue.Pairwise (fun a b => msgLE a b) :=
        List.sorted_mergeSort msgLE_trans msgLE_total (s.queue ++ [m])
      have hbound1 : ∀ mm ∈ s1.queue, ∀ e ∈ rest,
          mm.created_at < e.2.2 := by
        intro mm hmm e he
        have hmm2 : mm ∈ s.queue ++ [m] := hperm1.mem_iff.mp hmm
        rcases List.mem_append.mp hmm2 with h | h
        · exact hbound mm h e (List.mem_cons_of_mem _ he)
        · have : mm = m := List.mem_singleton.mp h
          subst this
          have ht : t < e.2.2 := List.rel_of_pairwise_cons htimes he
          simp only [hm, QueueMessage.mkDefault]
          exact ht
      have hroom1 : s1.queue.length + rest.length ≤ s1.max_size := by
        have : s1.queue.length = s.queue.length + 1 := by
          show ((s.queue ++ [m]).mergeSort msgLE).length =
            s.queue.length + 1
          rw [List.length_mergeSort]
          simp
        simp only [List.length_cons] at hroom
        simp [hs1] at this ⊢
        omega
      obtain ⟨hsrt, hprm⟩ := admitAll_spec rest s1 hsort1 hbound1
        htimes.tail hroom1
      refine ⟨by rwa [hq], ?_⟩
      rw [hq]
      calc (s1.admitAll rest).queue
          ~ s1.queue ++ scriptMsgs s1.next_id rest := hprm
        _ ~ (s.queue ++ [m]) ++ scriptMsgs (s.next_id + 1) rest :=
            hperm1.append_right _
        _ = s.queue ++ scriptMsgs s.next_id ((p, pr, t) :: rest) := by
            rw [List.append_assoc]
            rfl

/-- `a` dispatches strictly before `b`: higher priority, or same
priority and earlier admission. -/
def dispatchBefore {V : Type} (a b : QueueMessage V) : Prop :=
  b.priority.value < a.priority.value ∨
    (a.priority.value = b.priority.value ∧ a.created_at < b.created_at)

/-- The caller-visible identity of a job: payload, priority, admission
time. -/
def jobView {V : Type} (m : QueueMessage V) :
    List (String × V) × MessagePriority × Nat :=
  (m.payload, m.priority, m.created_at)

theorem scriptMsgs_created {V : Type} (nid : Nat)
    (script : List (List (String × V) × MessagePriority × Nat)) :
    (scriptMsgs nid script).map (fun m => m.created_at) =
      script.map (fun e => e.2.2) := by
  induction script generalizing nid with
  | nil => rfl
  | cons e rest ih =>
      obtain ⟨p, pr, t⟩ := e
      simp [scriptMsgs, QueueMessage.mkDefault, ih]

theorem scriptMsgs_jobView {V : Type} (nid : Nat)
    (script : List (List (String × V) × MessagePriority × Nat)) :
    (scriptMsgs nid script).map jobView = script := by
  induction script generalizing nid with
  | nil => rfl
  | cons e rest ih =>
      obtain ⟨p, pr, t⟩ := e
      simp [scriptMsgs, QueueMessage.mkDefault, jobView, ih]

/-- A sorted pending list with pairwise-distinct admission times is
strictly ordered by the dispatch order. -/
theorem sorted_strict {V : Type} (q : List (QueueMessage V))
    (hsort : q.Pairwise (fun a b => msgLE a b))
    (hnd : (q.map (fun m => m.created_at)).Nodup) :
    q.Pairwise dispatchBefore := by
  have hne : q.Pairwise (fun a b => a.created_at ≠ b.created_at) :=
    List.pairwise_map.mp hnd
  refine (hsort.and hne).imp ?_
  rintro a b ⟨hab, hne'⟩
  simp only [msgLE, sortKey, Bool.or_eq_true, Bool.and_eq_true,
    decide_eq_true_eq] at hab
  simp only [dispatchBefore]
  omega

/-- The in-process half of C1: draining after a strictly-timed admission
script yields the admitted jobs in dispatch order. -/
theorem mem_backend_fifo {V : Type}
    (script : List (List (String × V) × MessagePriority × Nat))
    (ms t : Nat)
    (htimes : script.Pairwise (fun a b => a.2.2 < b.2.2))
    (hroom : script.length ≤ ms) :
    (drainAll t script.length
        ((MessageQueue.empty V ms).admitAll script)).Pairwise
      dispatchBefore ∧
    (drainAll t script.length
        ((MessageQueue.empty V ms).admitAll script)).map jobView ~
      script := by
  obtain ⟨hsort, hperm⟩ := admitAll_spec script (MessageQueue.empty V ms)
    (by simp [MessageQueue.empty]) (by simp [MessageQueue.empty]) htimes
    (by simpa [MessageQueue.empty] using hroom)
  set q := ((MessageQueue.empty V ms).admitAll script).queue with hq
  have hperm' : q ~ scriptMsgs 0 script := by
    simpa [MessageQueue.empty] using hperm
  have hlen : q.length = script.length := by
    rw [hperm'.length_eq, scriptMsgs_length]
  have hdrain : drainAll t script.length
      ((MessageQueue.empty V ms).admitAll script) =
      q.map (fun m => { m with status := QueueStatus.processing,
                               started_at := some t }) := by
    rw [← hlen]
    exact drainAll_eq t q _ rfl
  have hndT : (script.map (fun e => e.2.2)).Nodup :=
    List.pairwise_map.mpr (htimes.imp (fun h => Nat.ne_of_lt h))
  have hndq : (q.map (fun m => m.created_at)).Nodup := by
    have h2 : q.map (fun m => m.created_at) ~
        script.map (fun e => e.2.2) := by
      rw [← scriptMsgs_created 0 script]
      exact hperm'.map _
    exact h2.nodup_iff.mpr hndT
  have hstrict : q.Pairwise dispatchBefore := sorted_strict q hsort hndq
  constructor
  · rw [hdrain]
    exact List.pairwise_map.mpr (hstrict.imp (fun h => h))
  · rw [hdrain, List.map_map]
    have hjv : q.map (jobView ∘ fun m =>
        { m with status := QueueStatus.processing,
                 started_at := some t }) = q.map jobView :=
      List.map_congr_left (fun m _ => rfl)
    rw [hjv, ← scriptMsgs_jobView 0 script]
    exact hperm'.map jobView

theorem scoreLE_trans {V : Type} (a b c : QueueMessage V × Int)
    (h1 : scoreLE a b) (h2 : scoreLE b c) : scoreLE a c := by
  simp only [scoreLE, decide_eq_true_eq] at h1 h2 ⊢
  omega

theorem scoreLE_total {V : Type} (a b : QueueMessage V × Int) :
    scoreLE a b || scoreLE b a := by
  simp only [scoreLE, Bool.or_eq_true, decide_eq_true_eq]
  omega

/-- Two distinct members of a duplicate-free list occur in one order or
the other. -/
theorem sublist_pair_of_mem {α : Type} {l : List α} (hnd : l.Nodup)
    {a b : α} (ha : a ∈ l) (hb : b ∈ l) (hne : a ≠ b) :
    [a, b] <+ l ∨ [b, a] <+ l := by
  induction l with
  | nil => cases ha
  | cons c t ih =>
      rcases List.mem_cons.mp ha with rfl | hat
      · have hbt : b ∈ t := by
          rcases List.mem_cons.mp hb with rfl | h
          · exact absurd rfl hne
          · exact h
        exact Or.inl (List.Sublist.cons₂ a (List.singleton_sublist.mpr hbt))
      · rcases List.mem_cons.mp hb with rfl | hbt
        · exact Or.inr (List.Sublist.cons₂ b
            (List.singleton_sublist.mpr hat))
        · rcases ih (List.Nodup.of_cons hnd) hat hbt with h | h
          · exact Or.inl (h.cons c)
          · exact Or.inr (h.cons c)

/-- The head of the stable sort by score is a member with minimal score,
and every member strictly before it in insertion order has a strictly
larger score. -/
theorem zpop_sorted_head {V : Type} [DecidableEq V]
    {l : List (QueueMessage V × Int)} {e : QueueMessage V × Int}
    {rest : List (QueueMessage V × Int)}
    (hs : l.mergeSort scoreLE = e :: rest) :
    e ∈ l ∧ (∀ x ∈ l, e.2 ≤ x.2) ∧
      (l.Nodup → ∀ x, [x, e] <+ l → e.2 < x.2) := by
  have hmem : e ∈ l := by
    have : e ∈ l.mergeSort scoreLE := hs ▸ List.mem_cons_self e rest
    exact List.mem_mergeSort.mp this
  have hsorted : (l.mergeSort scoreLE).Pairwise (fun a b => scoreLE a b) :=
    List.sorted_mergeSort scoreLE_trans scoreLE_total l
  rw [hs] at hsorted
  refine ⟨hmem, ?_, ?_⟩
  · intro x hx
    have hx2 : x ∈ e :: rest := by
      rw [← hs]
      exact List.mem_mergeSort.mpr hx
    rcases List.mem_cons.mp hx2 with rfl | hxr
    · exact le_refl _
    · have := List.rel_of_pairwise_cons hsorted hxr
      simpa [scoreLE] using this
  · intro hnd x hxe
    by_contra hlt
    push_neg at hlt
    have hxle : scoreLE x e := by
      simp [scoreLE, hlt]
    have hsub : [x, e] <+ l.mergeSort scoreLE :=
      List.pair_sublist_mergeSort scoreLE_trans scoreLE_total hxle hxe
    rw [hs] at hsub
    have hndm : (e :: rest).Nodup := by
      rw [← hs]
      exact (List.mergeSort_perm l scoreLE).nodup_iff.mpr hnd
    have hens : e ∉ rest := (List.nodup_cons.mp hndm).1
    cases hsub with
    | cons _ h =>
        exact hens (h.subset (List.mem_cons_of_mem x
          (List.mem_singleton.mpr rfl)))
    | cons₂ _ h =>
        exact hens (List.singleton_sublist.mp h)

/-- The popped head dispatches before every other member of the sorted
set: its score is minimal and ties are broken by insertion order, which
under strictly increasing admission times is admission order. -/
theorem zpop_head_rel {V : Type} [DecidableEq V]
    {l : List (QueueMessage V × Int)} {e : QueueMessage V × Int}
    {rest : List (QueueMessage V × Int)}
    (hs : l.mergeSort scoreLE = e :: rest)
    (hsc : ∀ x ∈ l, x.2 = -(x.1.priority.value : Int))
    (hcr : l.Pairwise (fun a b => a.1.created_at < b.1.created_at)) :
    e ∈ l ∧ ∀ x ∈ l, x ≠ e → dispatchBefore e.1 x.1 := by
  have hnd : l.Nodup := by
    refine List.Pairwise.imp ?_ hcr
    intro a b hab heq
    rw [heq] at hab
    exact Nat.lt_irrefl _ hab
  obtain ⟨hmem, hmin, hfirst⟩ := zpop_sorted_head hs
  refine ⟨hmem, ?_⟩
  intro x hx hne
  have hle : e.2 ≤ x.2 := hmin x hx
  rw [hsc x hx, hsc e hmem] at hle
  by_cases hpe : x.1.priority.value < e.1.priority.value
  · exact Or.inl hpe
  · have hpeq : e.1.priority.value = x.1.priority.value := by omega
    refine Or.inr ⟨hpeq, ?_⟩
    rcases sublist_pair_of_mem hnd hx hmem hne with h | h
    · exfalso
      have := hfirst hnd x h
      rw [hsc x hx, hsc e hmem] at this
      omega
    · have := (hcr.sublist h)
      exact List.rel_of_pairwise_cons this (List.mem_singleton.mpr rfl)

/-- `zpopmin1` computed from the sorted head. -/
theorem zpopmin1_cons {V : Type} [DecidableEq V]
    {l : List (QueueMessage V × Int)} {e : QueueMessage V × Int}
    {rest : List (QueueMessage V × Int)}
    (hs : l.mergeSort scoreLE = e :: rest) :
    zpopmin1 l = ([e], l.eraseP (fun x => decide (x.1 = e.1))) := by
  simp [zpopmin1, hs]

/-- Repeatedly `dequeue` the durable backend. -/
def rdrainAll {V : Type} [DecidableEq V] (t : Nat) :
    Nat → RedisMessageQueue V → List (QueueMessage V)
  | 0, _ => []
  | n + 1, s =>
      match s.dequeue t with
      | (none, _) => []
      | (some m, s1) => m :: rdrainAll t n s1

/-- Draining the durable backend's sorted set yields the members in
dispatch order (score ascending, insertion order within a score). -/
theorem rdrain_spec {V : Type} [DecidableEq V] (t : Nat) :
    ∀ (n : Nat) (s : RedisMessageQueue V),
      s.queue.length = n →
      (∀ x ∈ s.queue, x.2 = -(x.1.priority.value : Int)) →
      s.queue.Pairwise (fun a b => a.1.created_at < b.1.created_at) →
      (rdrainAll t n s).Pairwise dispatchBefore ∧
      (rdrainAll t n s).map jobView ~
        s.queue.map (fun x => jobView x.1) := by
  intro n
  induction n with
  | zero =>
      intro s hlen _ _
      have : s.queue = [] := List.length_eq_zero.mp hlen
      rw [rdrainAll, this]
      exact ⟨List.Pairwise.nil, List.Perm.refl _⟩
  | succ n ih =>
      intro s hlen hsc hcr
      have hne : s.queue ≠ [] := by
        intro h
        rw [h] at hlen
        simp at hlen
      match hs : s.queue.mergeSort scoreLE with
      | [] =>
          exfalso
          have hlms : (s.queue.mergeSort scoreLE).length =
              s.queue.length := List.length_mergeSort s.queue
          rw [hs] at hlms
          exact hne (List.length_eq_zero.mp hlms.symm)
      | e :: rest =>
          obtain ⟨hmem, hrel⟩ := zpop_head_rel hs hsc hcr
          have hnd : s.queue.Nodup := by
            refine List.Pairwise.imp ?_ hcr
            intro a b hab heq
            rw [heq] at hab
            exact Nat.lt_irrefl _ hab
          obtain ⟨a, l₁, l₂, hnotp, hpa, hldecomp, herase⟩ :=
            List.exists_of_eraseP (p := fun x => decide (x.1 = e.1))
              hmem (by simp)
          have hae : a = e := by
            have ha1 : a.1 = e.1 := by simpa using hpa
            have hamem : a ∈ s.queue := by
              rw [hldecomp]
              exact List.mem_append_right l₁ (List.mem_cons_self a l₂)
            have ha2 : a.2 = e.2 := by
              rw [hsc a hamem, hsc e hmem, ha1]
            exact Prod.ext ha1 ha2
          subst hae
          have hperm : s.queue ~ a :: s.queue.eraseP
              (fun x => decide (x.1 = a.1)) := by
            rw [herase, hldecomp]
            exact List.perm_middle
          have hdq : s.dequeue t = (some
              { a.1 with status := QueueStatus.processing,
                         started_at := some t },
              { s with
                  queue := s.queue.eraseP (fun x => decide (x.1 = a.1)),
                  processing := mapSet s.processing a.1.id
                    { a.1 with status := QueueStatus.processing,
                               started_at := some t },
                  stats := hincrby (hincrby s.stats "total_dequeued" 1)
                             "currently_processing" 1 }) := by
            simp only [RedisMessageQueue.dequeue, zpopmin1_cons hs]
          have hnotmem : a ∉ s.queue.eraseP
              (fun x => decide (x.1 = a.1)) := by
            rw [herase]
            intro hin
            rcases List.mem_append.mp hin with h | h
            · have := hnotp a h
              simp at this
            · have hal : a ∉ l₂ := by
                have hndl := hnd
                rw [hldecomp] at hndl
                exact (List.nodup_cons.mp
                  (List.nodup_append.mp hndl).2.1).1
              exact hal h
          have herlen : (s.queue.eraseP
              (fun x => decide (x.1 = a.1))).length = n := by
            have hlep := List.length_eraseP_of_mem hmem
              (p := fun x => decide (x.1 = a.1)) (by simp)
            omega
          have hersub : s.queue.eraseP (fun x => decide (x.1 = a.1)) <+
              s.queue := List.eraseP_sublist s.queue
          obtain ⟨ihp, ihq⟩ := ih
            { s with
                queue := s.queue.eraseP (fun x => decide (x.1 = a.1)),
                processing := mapSet s.processing a.1.id
                  { a.1 with status := QueueStatus.processing,
                             started_at := some t },
                stats := hincrby (hincrby s.stats "total_dequeued" 1)
                           "currently_processing" 1 }
            herlen (fun x hx => hsc x (hersub.subset hx))
            (hcr.sublist hersub)
          have hdrain : rdrainAll t (n + 1) s =
              { a.1 with status := QueueStatus.processing,
                         started_at := some t } ::
                rdrainAll t n
                  { s with
                      queue := s.queue.eraseP
                        (fun x => decide (x.1 = a.1)),
                      processing := mapSet s.processing a.1.id
                        { a.1 with status := QueueStatus.processing,
                                   started_at := some t },
                      stats := hincrby
                        (hincrby s.stats "total_dequeued" 1)
                        "currently_processing" 1 } := by
            rw [rdrainAll, hdq]
          rw [hdrain]
          constructor
          · refine List.pairwise_cons.mpr ⟨?_, ihp⟩
            intro y hy
            have hyv : jobView y ∈ ((s.queue.eraseP
                (fun x => decide (x.1 = a.1))).map
                  (fun x => jobView x.1)) :=
              ihq.subset (List.mem_map_of_mem jobView hy)
            obtain ⟨x, hxq, hxv⟩ := List.mem_map.mp hyv
            have hxmem : x ∈ s.queue := hersub.subset hxq
            have hxne : x ≠ a := fun h => hnotmem (h ▸ hxq)
            have hrel2 := hrel x hxmem hxne
            have hyv2 : y.priority = x.1.priority ∧
                y.created_at = x.1.created_at := by
              have h1 := congrArg (fun z => z.2.1) hxv
              have h2 := congrArg (fun z => z.2.2) hxv
              simp only [jobView] at h1 h2
              exact ⟨h1.symm, h2.symm⟩
            simp only [dispatchBefore] at hrel2 ⊢
            rw [hyv2.1, hyv2.2]
            exact hrel2
          · have step2 : jobView a.1 ::
                (s.queue.eraseP (fun x => decide (x.1 = a.1))).map
                  (fun x => jobView x.1) ~
                s.queue.map (fun x => jobView x.1) := by
              have hmapped := (hperm.map (fun x => jobView x.1)).symm
              simpa using hmapped
            exact (ihq.cons _).trans step2

/-- Admit a script of `(payload, priority, time)` rows against the
durable backend. -/
def RedisMessageQueue.admitAll {V : Type} [DecidableEq V]
    (s : RedisMessageQueue V) :
    List (List (String × V) × MessagePriority × Nat) →
      RedisMessageQueue V
  | [] => s
  | (p, pr, t) :: rest =>
      match s.enqueue p pr t with
      | .ok (_, s1) => s1.admitAll rest
      | .error _ => s.admitAll rest

/-- The sorted-set entries a script of admissions creates. -/
def scriptEntries {V : Type} (nid : Nat) :
    List (List (String × V) × MessagePriority × Nat) →
      List (QueueMessage V × Int)
  | [] => []
  | (p, pr, t) :: rest =>
      (QueueMessage.mkDefault nid p pr t, -(pr.value : Int)) ::
        scriptEntries (nid + 1) rest

theorem scriptEntries_length {V : Type} (nid : Nat)
    (script : List (List (String × V) × MessagePriority × Nat)) :
    (scriptEntries nid script).length = script.length := by
  induction script generalizing nid with
  | nil => rfl
  | cons e rest ih =>
      obtain ⟨p, pr, t⟩ := e
      simp [scriptEntries, ih]

theorem scriptEntries_score {V : Type} (nid : Nat)
    (script : List (List (String × V) × MessagePriority × Nat)) :
    ∀ x ∈ scriptEntries nid script,
      x.2 = -(x.1.priority.value : Int) := by
  induction script generalizing nid with
  | nil => intro x hx; cases hx
  | cons e rest ih =>
      obtain ⟨p, pr, t⟩ := e
      intro x hx
      rcases List.mem_cons.mp hx with rfl | hx2
      · rfl
      · exact ih (nid + 1) x hx2

theorem scriptEntries_created {V : Type} (nid : Nat)
    (script : List (List (String × V) × MessagePriority × Nat)) :
    (scriptEntries nid script).map (fun x => x.1.created_at) =
      script.map (fun e => e.2.2) := by
  induction script generalizing nid with
  | nil => rfl
  | cons e rest ih =>
      obtain ⟨p, pr, t⟩ := e
      simp [scriptEntries, QueueMessage.mkDefault, ih]

theorem scriptEntries_jobView {V : Type} (nid : Nat)
    (script : List (List (String × V) × MessagePriority × Nat)) :
    (scriptEntries nid script).map (fun x => jobView x.1) = script := by
  induction script generalizing nid with
  | nil => rfl
  | cons e rest ih =>
      obtain ⟨p, pr, t⟩ := e
      simp only [scriptEntries, List.map_cons, ih]
      rfl

/-- Admitting a strictly-time-increasing script appends its entries, in
order, to the durable backend's sorted set. -/
theorem radmitAll_spec {V : Type} [DecidableEq V] :
    ∀ (script : List (List (String × V) × MessagePriority × Nat))
      (s : RedisMessageQueue V),
      (∀ x ∈ s.queue, ∀ e ∈ script, x.1.created_at < e.2.2) →
      script.Pairwise (fun a b => a.2.2 < b.2.2) →
      s.queue.length + script.length ≤ s.max_size →
      (s.admitAll script).queue =
        s.queue ++ scriptEntries s.next_id script
  | [], s => by
      intro _ _ _
      simp [RedisMessageQueue.admitAll, scriptEntries]
  | (p, pr, t) :: rest, s => by
      intro hbound htimes hroom
      have hlen : s.queue.length < s.max_size := by
        simp only [List.length_cons] at hroom
        omega
      set m := QueueMessage.mkDefault s.next_id p pr t with hm
      have hfresh : ∀ x ∈ s.queue, x.1 ≠ m := by
        intro x hx heq
        have h1 : x.1.created_at < t :=
          hbound x hx (p, pr, t) (List.mem_cons_self _ _)
        rw [heq] at h1
        simp [hm, QueueMessage.mkDefault] at h1
      have hzadd : zadd s.queue m (-(m.priority.value : Int)) =
          s.queue ++ [(m, -(pr.value : Int))] :=
        zadd_of_not_mem s.queue m _ hfresh
      have hq : s.admitAll ((p, pr, t) :: rest) =
          RedisMessageQueue.admitAll
            { s with queue := s.queue ++ [(m, -(pr.value : Int))],
                     stats := hincrby s.stats "total_enqueued" 1,
                     next_id := s.next_id + 1 } rest := by
        show (match s.enqueue p pr t with
              | .ok (_, s1) => s1.admitAll rest
              | .error _ => s.admitAll rest) = _
        rw [renqueue_ok s p pr t hlen]
        simp only [← hm, hzadd]
      rw [hq]
      have hbound1 : ∀ x ∈ s.queue ++ [(m, -(pr.value : Int))],
          ∀ e ∈ rest, x.1.created_at < e.2.2 := by
        intro x hx e he
        rcases List.mem_append.mp hx with h | h
        · exact hbound x h e (List.mem_cons_of_mem _ he)
        · have : x = (m, -(pr.value : Int)) := List.mem_singleton.mp h
          subst this
          have ht : t < e.2.2 := List.rel_of_pairwise_cons htimes he
          simpa [hm, QueueMessage.mkDefault] using ht
      have hroom1 : (s.queue ++ [(m, -(pr.value : Int))]).length +
          rest.length ≤ s.max_size := by
        simp only [List.length_append, List.length_cons,
          List.length_nil] at hroom ⊢
        omega
      have := radmitAll_spec rest
        { s with queue := s.queue ++ [(m, -(pr.value : Int))],
                 stats := hincrby s.stats "total_enqueued" 1,
                 next_id := s.next_id + 1 } hbound1 htimes.tail hroom1
      rw [this]
      simp only [List.append_assoc]
      rfl

/-- C1.  On both backends, admitting jobs at strictly increasing times
and then repeatedly claiming returns exactly the admitted jobs, in
non-increasing priority order with ties broken by admission order
(older same-priority jobs first). -/
theorem C1_priority_fifo {V : Type} [DecidableEq V]
    (script : List (List (String × V) × MessagePriority × Nat))
    (ms t : Nat)
    (htimes : script.Pairwise (fun a b => a.2.2 < b.2.2))
    (hroom : script.length ≤ ms) :
    ((drainAll t script.length
        ((MessageQueue.empty V ms).admitAll script)).Pairwise
      dispatchBefore ∧
     (drainAll t script.length
        ((MessageQueue.empty V ms).admitAll script)).map jobView ~
      script) ∧
    ((rdrainAll t script.length
        ((RedisMessageQueue.empty V ms).admitAll script)).Pairwise
      dispatchBefore ∧
     (rdrainAll t script.length
        ((RedisMessageQueue.empty V ms).admitAll script)).map jobView ~
      script) := by
  refine ⟨mem_backend_fifo script ms t htimes hroom, ?_⟩
  have hq : ((RedisMessageQueue.empty V ms).admitAll script).queue =
      scriptEntries 0 script := by
    have h := radmitAll_spec script (RedisMessageQueue.empty V ms)
      (by simp [RedisMessageQueue.empty]) htimes
      (by simpa [RedisMessageQueue.empty] using hroom)
    simpa [RedisMessageQueue.empty] using h
  have hlen : ((RedisMessageQueue.empty V ms).admitAll
      script).queue.length = script.length := by
    rw [hq, scriptEntries_length]
  have hsc : ∀ x ∈ ((RedisMessageQueue.empty V ms).admitAll
      script).queue, x.2 = -(x.1.priority.value : Int) := by
    rw [hq]
    exact scriptEntries_score 0 script
  have hcr : ((RedisMessageQueue.empty V ms).admitAll
      script).queue.Pairwise
        (fun a b => a.1.created_at < b.1.created_at) := by
    rw [hq]
    have h1 : ((scriptEntries 0 script).map
        (fun x : QueueMessage V × Int => x.1.created_at)).Pairwise
          (fun a b => a < b) := by
      rw [scriptEntries_created]
      exact List.pairwise_map.mpr htimes
    exact List.pairwise_map.mp h1
  obtain ⟨h1, h2⟩ := rdrain_spec t script.length _ hlen hsc hcr
  refine ⟨h1, ?_⟩
  rw [hq, scriptEntries_jobView] at h2
  exact h2

/-- Witness for C1: the spec scenario — LOW, URGENT, NORMAL admitted in
that order drain URGENT, NORMAL, LOW on both backends. -/
theorem C1_priority_fifo_witness :
    (drainAll 3 3 ((MessageQueue.empty Nat 5).admitAll
        [([], MessagePriority.low, 0), ([], MessagePriority.urgent, 1),
         ([], MessagePriority.normal, 2)])).Pairwise dispatchBefore :=
  (C1_priority_fifo
    [([], MessagePriority.low, 0), ([], MessagePriority.urgent, 1),
     ([], MessagePriority.normal, 2)] 5 3 (by decide) (by decide)).1.1

/-! ## C2: backend comparison -/

/-- Operations of the admit/claim/acknowledge-success fragment. -/
def noFailOp {V : Type} : QOp V → Bool
  | .enq _ _ _ => true
  | .deq _ => true
  | .comp _ _ _ => true
  | .ack_fail _ _ _ => false
  | .sweep _ _ => false

/-- Admission times along a script are at least the bound and strictly
increase. -/
def enqTimesOK {V : Type} : Nat → List (QOp V) → Bool
  | _, [] => true
  | b, op :: rest =>
      match op with
      | .enq _ _ tt => decide (b ≤ tt) && enqTimesOK (tt + 1) rest
      | .deq _ => enqTimesOK b rest
      | .comp _ _ _ => enqTimesOK b rest
      | .ack_fail _ _ _ => enqTimesOK b rest
      | .sweep _ _ => enqTimesOK b rest

/-- The simulation relation between the two backends: identical
in-flight and terminal maps, freshness counter and capacity; the
in-process pending list is a sorted permutation of the durable sorted
set's members; scores are negated priorities; admission times strictly
increase along insertion order and are below the bound `b`. -/
structure SimInv {V : Type} (b : Nat) (mq : MessageQueue V)
    (rq : RedisMessageQueue V) : Prop where
  maxeq : mq.max_size = rq.max_size
  nideq : mq.next_id = rq.next_id
  proceq : mq.processing = rq.processing
  compeq : mq.completed = rq.completed
  qperm : mq.queue ~ rq.queue.map Prod.fst
  qsorted : mq.queue.Pairwise (fun a b => msgLE a b)
  qscore : ∀ x ∈ rq.queue, x.2 = -(x.1.priority.value : Int)
  qcreated : rq.queue.Pairwise (fun a b => a.1.created_at < b.1.created_at)
  qbound : ∀ x ∈ rq.queue, x.1.created_at < b

theorem msgLE_refl {V : Type} (a : QueueMessage V) : msgLE a a := by
  simp [msgLE]

/-- Simulation step: admit. -/
theorem simEnq {V : Type} [DecidableEq V] {b : Nat}
    {mq : MessageQueue V} {rq : RedisMessageQueue V}
    (hinv : SimInv b mq rq) (p : List (String × V))
    (pr : MessagePriority) {tt : Nat} (htt : b ≤ tt) :
    (mq.runOp (.enq p pr tt)).1 = (rq.runOp (.enq p pr tt)).1 ∧
    SimInv (tt + 1) (mq.runOp (.enq p pr tt)).2
      (rq.runOp (.enq p pr tt)).2 := by
  have hleneq : mq.queue.length = rq.queue.length := by
    have h := hinv.qperm.length_eq
    simpa using h
  by_cases hfull : rq.queue.length ≥ rq.max_size
  · have hmfull : mq.queue.length ≥ mq.max_size := by
      rw [hleneq, hinv.maxeq]
      exact hfull
    have h1 : mq.runOp (.enq p pr tt) =
        (.idOut (.error "Queue is full"), mq) := by
      rw [MessageQueue.runOp, enqueue_full mq p pr tt hmfull]
    have h2 : rq.runOp (.enq p pr tt) =
        (.idOut (.error "Queue is full"), rq) := by
      rw [RedisMessageQueue.runOp, renqueue_full rq p pr tt hfull]
    rw [h1, h2]
    exact ⟨rfl, { hinv with
      qbound := fun x hx => Nat.lt_of_lt_of_le (hinv.qbound x hx)
        (by omega) }⟩
  · have hroom : rq.queue.length < rq.max_size := Nat.lt_of_not_le hfull
    have hmroom : mq.queue.length < mq.max_size := by
      rw [hleneq, hinv.maxeq]
      exact hroom
    set m := QueueMessage.mkDefault rq.next_id p pr tt with hm
    have hfresh : ∀ x ∈ rq.queue, x.1 ≠ m := by
      intro x hx heq
      have h1 : x.1.created_at < b := hinv.qbound x hx
      rw [heq] at h1
      simp only [hm, QueueMessage.mkDefault] at h1
      omega
    have hzadd : zadd rq.queue m (-(m.priority.value : Int)) =
        rq.queue ++ [(m, -(m.priority.value : Int))] :=
      zadd_of_not_mem rq.queue m (-(m.priority.value : Int)) hfresh
    have hmm : QueueMessage.mkDefault mq.next_id p pr tt = m := by
      rw [hinv.nideq, hm]
    have h1 : mq.runOp (.enq p pr tt) = (.idOut (.ok mq.next_id),
        { mq with
            queue := (mq.queue ++
              [QueueMessage.mkDefault mq.next_id p pr tt]).mergeSort msgLE,
            next_id := mq.next_id + 1 }) := by
      rw [MessageQueue.runOp, enqueue_ok mq p pr tt hmroom]
    have h2 : rq.runOp (.enq p pr tt) = (.idOut (.ok rq.next_id),
        { rq with
            queue := rq.queue ++ [(m, -(m.priority.value : Int))],
            stats := hincrby rq.stats "total_enqueued" 1,
            next_id := rq.next_id + 1 }) := by
      rw [RedisMessageQueue.runOp, renqueue_ok rq p pr tt hroom]
      rw [Prod.mk.injEq]
      refine ⟨rfl, ?_⟩
      rw [← hm, hzadd]
    rw [h1, h2]
    constructor
    · show OpOut.idOut (Except.ok mq.next_id) =
        OpOut.idOut (Except.ok rq.next_id)
      rw [hinv.nideq]
    · refine ⟨hinv.maxeq, ?_, hinv.proceq, hinv.compeq,
        ?_, ?_, ?_, ?_, ?_⟩
      · show mq.next_id + 1 = rq.next_id + 1
        rw [hinv.nideq]
      · show (mq.queue ++
            [QueueMessage.mkDefault mq.next_id p pr tt]).mergeSort msgLE ~
          (rq.queue ++ [(m, -(m.priority.value : Int))]).map Prod.fst
        rw [hmm, List.map_append]
        exact (List.mergeSort_perm _ msgLE).trans
          (hinv.qperm.append_right [m])
      · exact List.sorted_mergeSort msgLE_trans msgLE_total _
      · intro x hx
        rcases List.mem_append.mp hx with h | h
        · exact hinv.qscore x h
        · have hx2 : x = (m, -(m.priority.value : Int)) :=
            List.mem_singleton.mp h
          subst hx2
          rfl
      · refine List.pairwise_append.mpr ⟨hinv.qcreated, ?_, ?_⟩
        · exact List.pairwise_singleton _ _
        · intro x hx y hy
          have hy2 : y = (m, -(m.priority.value : Int)) :=
            List.mem_singleton.mp hy
          subst hy2
          have h1 : x.1.created_at < b := hinv.qbound x hx
          show x.1.created_at < m.created_at
          simp only [hm, QueueMessage.mkDefault]
          omega
      · intro x hx
        rcases List.mem_append.mp hx with h | h
        · exact Nat.lt_of_lt_of_le (hinv.qbound x h) (by omega)
        · have hx2 : x = (m, -(m.priority.value : Int)) :=
            List.mem_singleton.mp h
          subst hx2
          show m.created_at < tt + 1
          simp only [hm, QueueMessage.mkDefault]
          omega

/-- Strictly increasing admission times make the sorted-set entries
pairwise distinct. -/
theorem nodup_of_created {V : Type} {l : List (QueueMessage V × Int)}
    (hcr : l.Pairwise (fun a b => a.1.created_at < b.1.created_at)) :
    l.Nodup := by
  refine List.Pairwise.imp ?_ hcr
  intro a b hab heq
  rw [heq] at hab
  exact Nat.lt_irrefl _ hab

/-- Erasing the popped member splits it off the sorted set. -/
theorem erase_head_perm {V : Type} [DecidableEq V]
    {l : List (QueueMessage V × Int)} {e : QueueMessage V × Int}
    (hmem : e ∈ l)
    (hsc : ∀ x ∈ l, x.2 = -(x.1.priority.value : Int))
    (hnd : l.Nodup) :
    l ~ e :: l.eraseP (fun x => decide (x.1 = e.1)) ∧
    e ∉ l.eraseP (fun x => decide (x.1 = e.1)) := by
  obtain ⟨a, l₁, l₂, hnotp, hpa, hldecomp, herase⟩ :=
    List.exists_of_eraseP (p := fun x => decide (x.1 = e.1)) hmem
      (by simp)
  have hae : a = e := by
    have ha1 : a.1 = e.1 := by simpa using hpa
    have hamem : a ∈ l := by
      rw [hldecomp]
      exact List.mem_append_right l₁ (List.mem_cons_self a l₂)
    have ha2 : a.2 = e.2 := by
      rw [hsc a hamem, hsc e hmem, ha1]
    exact Prod.ext ha1 ha2
  subst hae
  constructor
  · rw [herase, hldecomp]
    exact List.perm_middle
  · rw [herase]
    intro hin
    rcases List.mem_append.mp hin with h | h
    · have := hnotp a h
      simp at this
    · have hal : a ∉ l₂ := by
        have hndl := hnd
        rw [hldecomp] at hndl
        exact (List.nodup_cons.mp (List.nodup_append.mp hndl).2.1).1
      exact hal h

/-- Simulation step: claim.  Both backends pop the same job — the
in-process head of the sorted pending list and the durable backend's
stable score-minimum coincide. -/
theorem simDeq {V : Type} [DecidableEq V] {b : Nat}
    {mq : MessageQueue V} {rq : RedisMessageQueue V}
    (hinv : SimInv b mq rq) (tt : Nat) :
    (mq.runOp (.deq tt)).1 = (rq.runOp (.deq tt)).1 ∧
    SimInv b (mq.runOp (.deq tt)).2 (rq.runOp (.deq tt)).2 := by
  by_cases hemp : rq.queue = []
  · have hmq : mq.queue = [] := by
      have h := hinv.qperm
      rw [hemp] at h
      simpa using h
    have hdq : mq.dequeue tt = none := by
      rw [MessageQueue.dequeue, hmq]
    have hrdq : rq.dequeue tt = (none, rq) := by
      simp [RedisMessageQueue.dequeue, hemp, zpopmin1]
    have h1 : mq.runOp (.deq tt) = (.msgOut none, mq) := by
      rw [MessageQueue.runOp, hdq]
    have h2 : rq.runOp (.deq tt) = (.msgOut none, rq) := by
      rw [RedisMessageQueue.runOp, hrdq]
      rfl
    rw [h1, h2]
    exact ⟨rfl, hinv⟩
  · match hs : rq.queue.mergeSort scoreLE with
    | [] =>
        exfalso
        have hlms : (rq.queue.mergeSort scoreLE).length =
            rq.queue.length := List.length_mergeSort rq.queue
        rw [hs] at hlms
        exact hemp (List.length_eq_zero.mp hlms.symm)
    | e :: rest =>
        obtain ⟨hemem, hrel⟩ := zpop_head_rel hs hinv.qscore
          hinv.qcreated
        match hq : mq.queue with
        | [] =>
            exfalso
            have hpq := hinv.qperm
            rw [hq] at hpq
            have hlen0 := hpq.length_eq
            simp only [List.length_nil, List.length_map] at hlen0
            exact hemp (List.length_eq_zero.mp hlen0.symm)
        | h :: mtail =>
            have hsorted2 := hinv.qsorted
            rw [hq] at hsorted2
            have hminh : ∀ y ∈ mq.queue, msgLE h y := by
              intro y hy
              rw [hq] at hy
              rcases List.mem_cons.mp hy with hy2 | hyt
              · rw [hy2]
                exact msgLE_refl h
              · exact List.rel_of_pairwise_cons hsorted2 hyt
            have he1mem : e.1 ∈ mq.queue :=
              hinv.qperm.mem_iff.mpr (List.mem_map_of_mem Prod.fst hemem)
            have hhmem : h ∈ rq.queue.map Prod.fst :=
              hinv.qperm.subset (hq ▸ List.mem_cons_self h mtail)
            obtain ⟨xh, hxh, hxh1⟩ := List.mem_map.mp hhmem
            have hh : h = e.1 := by
              by_cases hxe : xh = e
              · rw [← hxh1, hxe]
              · exfalso
                have hdb := hrel xh hxh hxe
                rw [hxh1] at hdb
                have hle := hminh e.1 he1mem
                simp only [msgLE, sortKey, dispatchBefore,
                  Bool.or_eq_true, Bool.and_eq_true,
                  decide_eq_true_eq] at hle hdb
                omega
            have hnd := nodup_of_created hinv.qcreated
            obtain ⟨hperm2, hnotmem⟩ :=
              erase_head_perm hemem hinv.qscore hnd
            have hdq1 : mq.dequeue tt = some
                ({ h with status := QueueStatus.processing,
                          started_at := some tt },
                 { mq with
                     queue := mtail,
                     processing := mapSet mq.processing h.id
                       { h with status := QueueStatus.processing,
                                started_at := some tt } }) := by
              rw [MessageQueue.dequeue, hq]
            have hdq2 : rq.dequeue tt = (some
                { e.1 with status := QueueStatus.processing,
                           started_at := some tt },
                { rq with
                    queue := rq.queue.eraseP
                      (fun x => decide (x.1 = e.1)),
                    processing := mapSet rq.processing e.1.id
                      { e.1 with status := QueueStatus.processing,
                                 started_at := some tt },
                    stats := hincrby
                      (hincrby rq.stats "total_dequeued" 1)
                      "currently_processing" 1 }) := by
              simp only [RedisMessageQueue.dequeue, zpopmin1_cons hs]
            have hr1 : mq.runOp (.deq tt) = (.msgOut (some h.id),
                { mq with
                    queue := mtail,
                    processing := mapSet mq.processing h.id
                      { h with status := QueueStatus.processing,
                               started_at := some tt } }) := by
              rw [MessageQueue.runOp, hdq1]
            have hr2 : rq.runOp (.deq tt) = (.msgOut (some e.1.id),
                { rq with
                    queue := rq.queue.eraseP
                      (fun x => decide (x.1 = e.1)),
                    processing := mapSet rq.processing e.1.id
                      { e.1 with status := QueueStatus.processing,
                                 started_at := some tt },
                    stats := hincrby
                      (hincrby rq.stats "total_dequeued" 1)
                      "currently_processing" 1 }) := by
              rw [RedisMessageQueue.runOp, hdq2]
              rfl
            have hersub : rq.queue.eraseP
                (fun x => decide (x.1 = e.1)) <+ rq.queue :=
              List.eraseP_sublist rq.queue
            rw [hr1, hr2]
            constructor
            · show OpOut.msgOut (some h.id) = OpOut.msgOut (some e.1.id)
              rw [hh]
            · refine ⟨hinv.maxeq, hinv.nideq, ?_, hinv.compeq,
                ?_, ?_, ?_, ?_, ?_⟩
              · show mapSet mq.processing h.id
                    { h with status := QueueStatus.processing,
                             started_at := some tt } = _
                rw [hinv.proceq, hh]
              · show mtail ~ (rq.queue.eraseP
                    (fun x => decide (x.1 = e.1))).map Prod.fst
                have hp1 : h :: mtail ~ rq.queue.map Prod.fst :=
                  hq ▸ hinv.qperm
                have hp2 : rq.queue.map Prod.fst ~ e.1 ::
                    (rq.queue.eraseP
                      (fun x => decide (x.1 = e.1))).map Prod.fst := by
                  have := hperm2.map Prod.fst
                  simpa using this
                have hp3 := hp1.trans hp2
                rw [hh] at hp3
                exact hp3.cons_inv
              · exact List.Pairwise.of_cons hsorted2
              · intro x hx
                exact hinv.qscore x (hersub.subset hx)
              · exact hinv.qcreated.sublist hersub
              · intro x hx
                exact hinv.qbound x (hersub.subset hx)

/-- The payload stored by `complete`: merge a truthy result document
into the payload, else keep it. -/
def completedPayload {V : Type} (m : QueueMessage V)
    (res : Option (List (String × V))) : List (String × V) :=
  match res with
  | some r => if r.isEmpty then m.payload else dictUpdate m.payload r
  | none => m.payload

/-- Simulation step: acknowledge-success. -/
theorem simComp {V : Type} [DecidableEq V] {b : Nat}
    {mq : MessageQueue V} {rq : RedisMessageQueue V}
    (hinv : SimInv b mq rq) (message_id : Nat)
    (res : Option (List (String × V))) (tt : Nat) :
    (mq.runOp (.comp message_id res tt)).1 =
      (rq.runOp (.comp message_id res tt)).1 ∧
    SimInv b (mq.runOp (.comp message_id res tt)).2
      (rq.runOp (.comp message_id res tt)).2 := by
  cases hg : mapGet rq.processing message_id with
  | none =>
      have hg1 : mapGet mq.processing message_id = none := by
        rw [hinv.proceq]
        exact hg
      have h1 : mq.runOp (.comp message_id res tt) =
          (.boolOut false, mq) := by
        rw [MessageQueue.runOp]
        simp only [MessageQueue.complete, hg1]
      have h2 : rq.runOp (.comp message_id res tt) =
          (.boolOut false, rq) := by
        rw [RedisMessageQueue.runOp]
        simp only [RedisMessageQueue.complete, hg]
      rw [h1, h2]
      exact ⟨rfl, hinv⟩
  | some m =>
      have hg1 : mapGet mq.processing message_id = some m := by
        rw [hinv.proceq]
        exact hg
      have h1 : mq.runOp (.comp message_id res tt) = (.boolOut true,
          { mq with
              processing := mapDel mq.processing message_id,
              completed := mapSet mq.completed message_id
                { m with
                    status := QueueStatus.completed,
                    completed_at := some tt,
                    payload := completedPayload m res } }) := by
        rw [MessageQueue.runOp]
        simp only [MessageQueue.complete, hg1]
        rfl
      have h2 : rq.runOp (.comp message_id res tt) = (.boolOut true,
          { rq with
              processing := mapDel rq.processing message_id,
              completed := mapSet rq.completed message_id
                { m with
                    status := QueueStatus.completed,
                    completed_at := some tt,
                    payload := completedPayload m res },
              stats := hincrby (hincrby rq.stats "total_completed" 1)
                         "currently_processing" (-1) }) := by
        rw [RedisMessageQueue.runOp]
        simp only [RedisMessageQueue.complete, hg]
        rfl
      rw [h1, h2]
      refine ⟨rfl, ⟨hinv.maxeq, hinv.nideq, ?_, ?_, hinv.qperm,
        hinv.qsorted, hinv.qscore, hinv.qcreated, hinv.qbound⟩⟩
      · show mapDel mq.processing message_id =
          mapDel rq.processing message_id
        rw [hinv.proceq]
      · show mapSet mq.completed message_id _ =
          mapSet rq.completed message_id _
        rw [hinv.compeq]

/-- Simulation of whole scripts of the admit/claim/success fragment:
identical outputs and related final states. -/
theorem sim_run {V : Type} [DecidableEq V] :
    ∀ (ops : List (QOp V)) (b : Nat) (mq : MessageQueue V)
      (rq : RedisMessageQueue V),
      (∀ op ∈ ops, noFailOp op) →
      enqTimesOK b ops = true →
      SimInv b mq rq →
      (mq.runOps ops).1 = (rq.runOps ops).1 ∧
      ∃ b2, SimInv b2 (mq.runOps ops).2 (rq.runOps ops).2
  | [], b, mq, rq => fun _ _ hinv => ⟨rfl, ⟨b, hinv⟩⟩
  | op :: rest, b, mq, rq => by
      intro hops ht hinv
      have hop : noFailOp op := hops op (List.mem_cons_self op rest)
      have hrest : ∀ o ∈ rest, noFailOp o :=
        fun o ho => hops o (List.mem_cons_of_mem op ho)
      cases op with
      | enq p pr tt =>
          simp only [enqTimesOK, Bool.and_eq_true,
            decide_eq_true_eq] at ht
          obtain ⟨htt, ht2⟩ := ht
          obtain ⟨ho, hinv2⟩ := simEnq hinv p pr htt
          obtain ⟨ho2, hex⟩ := sim_run rest (tt + 1) _ _ hrest ht2 hinv2
          constructor
          · show (mq.runOp (.enq p pr tt)).1 ::
                ((mq.runOp (.enq p pr tt)).2.runOps rest).1 =
              (rq.runOp (.enq p pr tt)).1 ::
                ((rq.runOp (.enq p pr tt)).2.runOps rest).1
            rw [ho, ho2]
          · exact hex
      | deq tt =>
          simp only [enqTimesOK] at ht
          obtain ⟨ho, hinv2⟩ := simDeq hinv tt
          obtain ⟨ho2, hex⟩ := sim_run rest b _ _ hrest ht hinv2
          constructor
          · show (mq.runOp (.deq tt)).1 ::
                ((mq.runOp (.deq tt)).2.runOps rest).1 =
              (rq.runOp (.deq tt)).1 ::
                ((rq.runOp (.deq tt)).2.runOps rest).1
            rw [ho, ho2]
          · exact hex
      | comp message_id res tt =>
          simp only [enqTimesOK] at ht
          obtain ⟨ho, hinv2⟩ := simComp hinv message_id res tt
          obtain ⟨ho2, hex⟩ := sim_run rest b _ _ hrest ht hinv2
          constructor
          · show (mq.runOp (.comp message_id res tt)).1 ::
                ((mq.runOp (.comp message_id res tt)).2.runOps rest).1 =
              (rq.runOp (.comp message_id res tt)).1 ::
                ((rq.runOp (.comp message_id res tt)).2.runOps rest).1
            rw [ho, ho2]
          · exact hex
      | ack_fail message_id err tt =>
          exact absurd hop (by simp [noFailOp])
      | sweep tt hrs =>
          exact absurd hop (by simp [noFailOp])

/-- Successful admissions among a run's outcomes. -/
def countEnqOk {V : Type} : List (OpOut V) → Nat
  | [] => 0
  | out :: r =>
      match out with
      | .idOut (.ok _) => countEnqOk r + 1
      | _ => countEnqOk r

/-- Successful claims among a run's outcomes. -/
def countDeqOk {V : Type} : List (OpOut V) → Nat
  | [] => 0
  | out :: r =>
      match out with
      | .msgOut (some _) => countDeqOk r + 1
      | _ => countDeqOk r

/-- Successful acknowledgements among a run's outcomes. -/
def countAckOk {V : Type} : List (OpOut V) → Nat
  | [] => 0
  | out :: r =>
      match out with
      | .boolOut true => countAckOk r + 1
      | _ => countAckOk r

theorem statGet_hincrby (h : List (String × Int)) (f g : String)
    (inc : Int) :
    statGet (hincrby h f inc) g =
      if f = g then statGet h g + inc else statGet h g := by
  unfold statGet hincrby
  by_cases hfg : f = g
  · subst hfg
    rw [mapGet_mapSet_self]
    simp [statGet]
  · rw [mapGet_mapSet_ne _ _ _ _ hfg, if_neg hfg]

/-- Each cumulative counter of the durable backend advances by exactly
one per corresponding successful transition, over any script of the
admit/claim/success fragment. -/
theorem redis_counters {V : Type} [DecidableEq V] :
    ∀ (ops : List (QOp V)) (s : RedisMessageQueue V),
      (∀ op ∈ ops, noFailOp op) →
      statGet (s.runOps ops).2.stats "total_enqueued" =
        statGet s.stats "total_enqueued" +
          (countEnqOk (s.runOps ops).1 : Int) ∧
      statGet (s.runOps ops).2.stats "total_dequeued" =
        statGet s.stats "total_dequeued" +
          (countDeqOk (s.runOps ops).1 : Int) ∧
      statGet (s.runOps ops).2.stats "total_completed" =
        statGet s.stats "total_completed" +
          (countAckOk (s.runOps ops).1 : Int) ∧
      statGet (s.runOps ops).2.stats "currently_processing" =
        statGet s.stats "currently_processing" +
          (countDeqOk (s.runOps ops).1 : Int) -
          (countAckOk (s.runOps ops).1 : Int)
  | [], s => fun _ => by
      refine ⟨?_, ?_, ?_, ?_⟩ <;> simp [RedisMessageQueue.runOps,
        countEnqOk, countDeqOk, countAckOk]
  | op :: rest, s => by
      intro hops
      have hop : noFailOp op := hops op (List.mem_cons_self op rest)
      have hrest : ∀ o ∈ rest, noFailOp o :=
        fun o ho => hops o (List.mem_cons_of_mem op ho)
      have hcons1 : (s.runOps (op :: rest)).1 =
          (s.runOp op).1 :: ((s.runOp op).2.runOps rest).1 := rfl
      have hcons2 : (s.runOps (op :: rest)).2 =
          ((s.runOp op).2.runOps rest).2 := rfl
      obtain ⟨ih1, ih2, ih3, ih4⟩ := redis_counters rest (s.runOp op).2
        hrest
      rw [hcons1, hcons2]
      cases op with
      | enq p pr tt =>
          by_cases hfull : s.queue.length ≥ s.max_size
          · have h2 : s.runOp (.enq p pr tt) =
                (.idOut (.error "Queue is full"), s) := by
              rw [RedisMessageQueue.runOp, renqueue_full s p pr tt hfull]
            have ho : (s.runOp (.enq p pr tt)).1 =
                .idOut (.error "Queue is full") := by rw [h2]
            have hst : (s.runOp (.enq p pr tt)).2.stats = s.stats := by
              rw [h2]
            rw [hst] at ih1 ih2 ih3 ih4
            rw [ho]
            simp only [countEnqOk, countDeqOk, countAckOk]
            refine ⟨?_, ?_, ?_, ?_⟩ <;> omega
          · have hroom : s.queue.length < s.max_size :=
              Nat.lt_of_not_le hfull
            have h2 : s.runOp (.enq p pr tt) = (.idOut (.ok s.next_id),
                { s with
                    queue := zadd s.queue
                      (QueueMessage.mkDefault s.next_id p pr tt)
                      (-((QueueMessage.mkDefault s.next_id p pr
                        tt).priority.value : Int)),
                    stats := hincrby s.stats "total_enqueued" 1,
                    next_id := s.next_id + 1 }) := by
              rw [RedisMessageQueue.runOp, renqueue_ok s p pr tt hroom]
            have ho : (s.runOp (.enq p pr tt)).1 =
                .idOut (.ok s.next_id) := by rw [h2]
            have hst : (s.runOp (.enq p pr tt)).2.stats =
                hincrby s.stats "total_enqueued" 1 := by rw [h2]
            rw [hst] at ih1 ih2 ih3 ih4
            simp [statGet_hincrby] at ih1 ih2 ih3 ih4
            rw [ho]
            simp only [countEnqOk, countDeqOk, countAckOk]
            refine ⟨?_, ?_, ?_, ?_⟩ <;> omega
      | deq tt =>
          cases hz : (zpopmin1 s.queue).1 with
          | nil =>
              have h2 : s.runOp (.deq tt) = (.msgOut none, s) := by
                rw [RedisMessageQueue.runOp]
                rw [RedisMessageQueue.dequeue]
                rw [hz]
                rfl
              have ho : (s.runOp (.deq tt)).1 = .msgOut none := by
                rw [h2]
              have hst : (s.runOp (.deq tt)).2.stats = s.stats := by
                rw [h2]
              rw [hst] at ih1 ih2 ih3 ih4
              rw [ho]
              simp only [countEnqOk, countDeqOk, countAckOk]
              refine ⟨?_, ?_, ?_, ?_⟩ <;> omega
          | cons e tl =>
              have h2 : s.runOp (.deq tt) = (.msgOut (some e.1.id),
                  { s with
                      queue := (zpopmin1 s.queue).2,
                      processing := mapSet s.processing e.1.id
                        { e.1 with
                            status := QueueStatus.processing,
                            started_at := some tt },
                      stats := hincrby
                        (hincrby s.stats "total_dequeued" 1)
                        "currently_processing" 1 }) := by
                rw [RedisMessageQueue.runOp]
                rw [RedisMessageQueue.dequeue]
                rw [hz]
                rfl
              have ho : (s.runOp (.deq tt)).1 =
                  .msgOut (some e.1.id) := by rw [h2]
              have hst : (s.runOp (.deq tt)).2.stats =
                  hincrby (hincrby s.stats "total_dequeued" 1)
                    "currently_processing" 1 := by rw [h2]
              rw [hst] at ih1 ih2 ih3 ih4
              simp [statGet_hincrby] at ih1 ih2 ih3 ih4
              rw [ho]
              simp only [countEnqOk, countDeqOk, countAckOk]
              refine ⟨?_, ?_, ?_, ?_⟩ <;> omega
      | comp message_id res tt =>
          cases hg : mapGet s.processing message_id with
          | none =>
              have h2 : s.runOp (.comp message_id res tt) =
                  (.boolOut false, s) := by
                rw [RedisMessageQueue.runOp]
                simp only [RedisMessageQueue.complete, hg]
              have ho : (s.runOp (.comp message_id res tt)).1 =
                  .boolOut false := by rw [h2]
              have hst : (s.runOp (.comp message_id res tt)).2.stats =
                  s.stats := by rw [h2]
              rw [hst] at ih1 ih2 ih3 ih4
              rw [ho]
              simp only [countEnqOk, countDeqOk, countAckOk]
              refine ⟨?_, ?_, ?_, ?_⟩ <;> omega
          | some m =>
              have h2 : s.runOp (.comp message_id res tt) =
                  (.boolOut true,
                  { s with
                      processing := mapDel s.processing message_id,
                      completed := mapSet s.completed message_id
                        { m with
                            status := QueueStatus.completed,
                            completed_at := some tt,
                            payload := completedPayload m res },
                      stats := hincrby
                        (hincrby s.stats "total_completed" 1)
                        "currently_processing" (-1) }) := by
                rw [RedisMessageQueue.runOp]
                simp only [RedisMessageQueue.complete, hg]
                rfl
              have ho : (s.runOp (.comp message_id res tt)).1 =
                  .boolOut true := by rw [h2]
              have hst : (s.runOp (.comp message_id res tt)).2.stats =
                  hincrby (hincrby s.stats "total_completed" 1)
                    "currently_processing" (-1) := by rw [h2]
              rw [hst] at ih1 ih2 ih3 ih4
              simp [statGet_hincrby] at ih1 ih2 ih3 ih4
              rw [ho]
              simp only [countEnqOk, countDeqOk, countAckOk]
              refine ⟨?_, ?_, ?_, ?_⟩ <;> omega
      | ack_fail message_id err tt =>
          exact absurd hop (by simp [noFailOp])
      | sweep tt hrs =>
          exact absurd hop (by simp [noFailOp])

/-- C2 counterexample: the two backends do not produce identical
`stats()`.  After the identical single admission (priority NORMAL at
t=5), the in-process backend reports `oldest_pending = 5` while the
durable backend (mock store path) reports the hard-coded `None`; the
in-process stats dictionary moreover carries no cumulative counters at
all. -/
theorem C2_stats_differ_between_backends :
    (((MessageQueue.empty Nat 10).runOps
        [QOp.enq [] MessagePriority.normal 5]).2.get_queue_stats
          6).oldest_pending = some 5 ∧
    (((RedisMessageQueue.empty Nat 10).runOps
        [QOp.enq [] MessagePriority.normal
          5]).2.get_queue_stats).oldest_pending = none := by
  constructor
  · show (((((MessageQueue.empty Nat 10).runOp
        (QOp.enq [] MessagePriority.normal 5)).2.runOps
          []).2.get_queue_stats 6)).oldest_pending = some 5
    rw [MessageQueue.runOp, enqueue_ok _ _ _ _ (by decide)]
    simp [MessageQueue.runOps, MessageQueue.get_queue_stats,
      MessageQueue.empty, QueueMessage.mkDefault]
  · rfl

/-- C2 (amended).  For identical scripts of admit / claim /
acknowledge-success operations with strictly increasing admission
times, the two backends return identical per-operation results, and
their final `stats()` agree on the pending, in-flight and terminal
counts and on `max_size`; on the durable backend each cumulative
counter advances exactly once per corresponding successful transition.
(The full stats dictionaries still differ — see the counterexample —
and a retrying `acknowledge_failure` can even reorder claims between
the backends, because the in-process backend re-sorts a retried job by
its original `created_at` while the durable backend appends it to its
priority tier.) -/
theorem C2_backend_equivalence_amended {V : Type} [DecidableEq V]
    (ops : List (QOp V)) (ms nowq : Nat)
    (hops : ∀ op ∈ ops, noFailOp op)
    (ht : enqTimesOK 0 ops = true) :
    ((MessageQueue.empty V ms).runOps ops).1 =
      ((RedisMessageQueue.empty V ms).runOps ops).1 ∧
    ((((MessageQueue.empty V ms).runOps ops).2.get_queue_stats
        nowq).pending_count =
      (((RedisMessageQueue.empty V ms).runOps
          ops).2.get_queue_stats).pending_count ∧
     (((MessageQueue.empty V ms).runOps ops).2.get_queue_stats
        nowq).processing_count =
      (((RedisMessageQueue.empty V ms).runOps
          ops).2.get_queue_stats).processing_count ∧
     (((MessageQueue.empty V ms).runOps ops).2.get_queue_stats
        nowq).completed_count =
      (((RedisMessageQueue.empty V ms).runOps
          ops).2.get_queue_stats).completed_count ∧
     (((MessageQueue.empty V ms).runOps ops).2.get_queue_stats
        nowq).max_size =
      (((RedisMessageQueue.empty V ms).runOps
          ops).2.get_queue_stats).max_size) ∧
    ((((RedisMessageQueue.empty V ms).runOps
        ops).2.get_queue_stats).total_enqueued =
      (countEnqOk ((RedisMessageQueue.empty V ms).runOps ops).1 : Int) ∧
     (((RedisMessageQueue.empty V ms).runOps
        ops).2.get_queue_stats).total_dequeued =
      (countDeqOk ((RedisMessageQueue.empty V ms).runOps ops).1 : Int) ∧
     (((RedisMessageQueue.empty V ms).runOps
        ops).2.get_queue_stats).total_completed =
      (countAckOk ((RedisMessageQueue.empty V ms).runOps ops).1 : Int) ∧
     (((RedisMessageQueue.empty V ms).runOps
        ops).2.get_queue_stats).currently_processing =
      (countDeqOk ((RedisMessageQueue.empty V ms).runOps ops).1 : Int) -
        (countAckOk ((RedisMessageQueue.empty V ms).runOps ops).1 :
          Int)) := by
  have hinv0 : SimInv 0 (MessageQueue.empty V ms)
      (RedisMessageQueue.empty V ms) := by
    refine ⟨rfl, rfl, rfl, rfl, List.Perm.refl _, List.Pairwise.nil,
      ?_, List.Pairwise.nil, ?_⟩
    · intro x hx
      exact absurd hx (List.not_mem_nil x)
    · intro x hx
      exact absurd hx (List.not_mem_nil x)
  obtain ⟨houts, b2, hinv⟩ := sim_run ops 0 _ _ hops ht hinv0
  obtain ⟨hc1, hc2, hc3, hc4⟩ := redis_counters ops
    (RedisMessageQueue.empty V ms) hops
  refine ⟨houts, ⟨?_, ?_, ?_, ?_⟩, ?_, ?_, ?_, ?_⟩
  · show ((MessageQueue.empty V ms).runOps ops).2.queue.length =
      ((RedisMessageQueue.empty V ms).runOps ops).2.queue.length
    have h := hinv.qperm.length_eq
    simpa using h
  · show ((MessageQueue.empty V ms).runOps ops).2.processing.length =
      ((RedisMessageQueue.empty V ms).runOps ops).2.processing.length
    rw [hinv.proceq]
  · show ((MessageQueue.empty V ms).runOps ops).2.completed.length =
      ((RedisMessageQueue.empty V ms).runOps ops).2.completed.length
    rw [hinv.compeq]
  · exact hinv.maxeq
  · show statGet ((RedisMessageQueue.empty V ms).runOps ops).2.stats
        "total_enqueued" = _
    rw [hc1]
    show (0 : Int) + _ = _
    omega
  · show statGet ((RedisMessageQueue.empty V ms).runOps ops).2.stats
        "total_dequeued" = _
    rw [hc2]
    show (0 : Int) + _ = _
    omega
  · show statGet ((RedisMessageQueue.empty V ms).runOps ops).2.stats
        "total_completed" = _
    rw [hc3]
    show (0 : Int) + _ = _
    omega
  · show statGet ((RedisMessageQueue.empty V ms).runOps ops).2.stats
        "currently_processing" = _
    rw [hc4]
    show (0 : Int) + _ - _ = _
    omega

/-- Witness for the amended C2: admit, claim, acknowledge-success; the
two backends return the same outcome list. -/
theorem C2_backend_equivalence_amended_witness :
    ((MessageQueue.empty Nat 4).runOps
        [QOp.enq [] MessagePriority.normal 0, QOp.deq 1,
         QOp.comp 0 none 2]).1 =
      ((RedisMessageQueue.empty Nat 4).runOps
        [QOp.enq [] MessagePriority.normal 0, QOp.deq 1,
         QOp.comp 0 none 2]).1 :=
  (C2_backend_equivalence_amended
    [QOp.enq [] MessagePriority.normal 0, QOp.deq 1, QOp.comp 0 none 2]
    4 9 (by decide) (by decide)).1

end AgenticQuote
